import Mathlib

/-!
# Verification of `nulls.NullTime` (src/nulls/null_time.go)

A shallow embedding of the Go package `nulls`: the `NullTime` record, its
constructor `NewNullTime` and its four methods `Scan`, `Value`, `MarshalJSON`
and `UnmarshalJSON`.

The methods call into Go's standard library (`time.Time.Year`,
`time.Time.Format`, `time.Parse`, `json.Marshal`).  Those library routines are
embedded here for the one layout the package uses,
`timeFormat = "2006-01-02T15:04:05-0700"`, following package `time`:
the cycle-cutting calendar arithmetic of `absDate` / `daysSinceEpoch`, the
field renderer `appendInt`, and the layout-driven loops of `appendFormat` and
`Parse`.

Modelling conventions
* a Go byte is a `Nat` (its code), a `[]byte` / `string` is a list of bytes;
* a `time.Time` is an instant (seconds since the Unix epoch plus nanoseconds)
  together with the UTC offset, in seconds, that its location has at that
  instant; the location name and the monotonic clock reading are not
  represented (the layout never prints or parses them);
* Go integers are unbounded `Int`s: the wrap-around of instants further than
  292 billion years from the epoch is not represented;
* a Go method with a pointer receiver takes the receiver state and returns the
  new state; a Go multi-value return is a pair; `error` is `Option Error`,
  `none` being `nil`.
-/

namespace Nulls

/-! ## Bytes -/

/-- A Go `[]byte` or `string`: the list of its bytes, each a `Nat` (the
byte's code). -/
abbrev Bytes := List Nat

/-- The byte sequence of an ASCII string literal. -/
def bytes (s : String) : Bytes := s.toList.map Char.toNat

/-! ## Errors -/

/-- The failure kinds of `time.Parse` (`*time.ParseError`): a layout element
that the value does not match, a field out of range, or trailing text. -/
inductive ParseError where
  | bad
  | outOfRange (what : String)
  | extraText
  deriving DecidableEq, Repr

/-- A Go `error` value as produced in this package. -/
inductive Error where
  | errorsNew (msg : String)
  | parse (e : ParseError)
  deriving DecidableEq, Repr

/-! ## `time.Time` -/

/-- A `time.Time`: the instant `sec` seconds + `nsec` nanoseconds after the
Unix epoch, in a location whose offset east of UTC at that instant is `offset`
seconds. -/
structure Time where
  sec : Int
  nsec : Int
  offset : Int
  deriving DecidableEq, Repr

def secondsPerMinute : Int := 60
def secondsPerHour : Int := 3600
def secondsPerDay : Int := 86400
def daysPer400Years : Int := 146097
def daysPer100Years : Int := 36524
def daysPer4Years : Int := 1461

/-- The year of the absolute epoch of package `time`. -/
def absoluteZeroYear : Int := -292277022399

/-- The constant `unixToInternal + internalToAbsolute` of package `time`. -/
def unixToAbsolute : Int := 9223372028715321600

/-- The zero value `time.Time{}`: January 1, year 1, 00:00:00 UTC. -/
def zeroTime : Time := { sec := -62135596800, nsec := 0, offset := 0 }

/-- Go's `Time.abs`: seconds since the absolute epoch, on the local clock. -/
def Time.abs (t : Time) : Int := t.sec + t.offset + unixToAbsolute

/-- Go's `isLeap` of package `time`. -/
def isLeap (year : Int) : Bool :=
  year % 4 == 0 && (year % 100 != 0 || year % 400 == 0)

/-- The table `daysBefore`: days in a non-leap year before month `m + 1`. -/
def daysBefore (m : Int) : Int :=
  if m = 0 then 0 else if m = 1 then 31 else if m = 2 then 59
  else if m = 3 then 90 else if m = 4 then 120 else if m = 5 then 151
  else if m = 6 then 181 else if m = 7 then 212 else if m = 8 then 243
  else if m = 9 then 273 else if m = 10 then 304 else if m = 11 then 334
  else 365

/-- Go's `daysIn`: the number of days of month `m` in `year`. -/
def daysIn (m : Int) (year : Int) : Int :=
  if m = 2 ∧ isLeap year then 29 else daysBefore m - daysBefore (m - 1)

/-- The year and zero-based day of the year of an absolute time: the first
half of `absDate`. -/
def absYearDay (abs : Int) : Int × Int :=
  let d := abs / secondsPerDay
  -- Account for 400 year cycles.
  let n := d / daysPer400Years
  let y := 400 * n
  let d := d - daysPer400Years * n
  -- Cut off 100-year cycles.
  let n := d / daysPer100Years
  let n := n - n / 4
  let y := y + 100 * n
  let d := d - daysPer100Years * n
  -- Cut off 4-year cycles.
  let n := d / daysPer4Years
  let y := y + 4 * n
  let d := d - daysPer4Years * n
  -- Cut off years within a 4-year cycle.
  let n := d / 365
  let n := n - n / 4
  let y := y + n
  let d := d - 365 * n
  (y + absoluteZeroYear, d)

/-- Go's `absDate(abs, true)`: year, month (1-12) and day of the month. -/
def absDate (abs : Int) : Int × Int × Int :=
  let (year, yday) := absYearDay abs
  if isLeap year ∧ yday = 31 + 29 - 1 then
    -- Leap day.
    (year, 2, 29)
  else
    -- After leap day; pretend it wasn't there.
    let day := if isLeap year ∧ yday > 31 + 29 - 1 then yday - 1 else yday
    -- Estimate month on assumption that every month has 31 days.
    let month := day / 31
    let fin := daysBefore (month + 1)
    if day ≥ fin then (year, month + 2, day - fin + 1)
    else (year, month + 1, day - daysBefore month + 1)

/-- Go's `absClock`: hour, minute and second within the day. -/
def absClock (abs : Int) : Int × Int × Int :=
  let sec := abs % secondsPerDay
  let hour := sec / secondsPerHour
  let sec := sec - hour * secondsPerHour
  let min := sec / secondsPerMinute
  let sec := sec - min * secondsPerMinute
  (hour, min, sec)

/-- Go's `Time.Year`. -/
def Time.Year (t : Time) : Int := (absYearDay t.abs).1

/-- Go's `norm`: carry `lo` into `hi` so that `0 ≤ lo < base`. -/
def norm (hi lo base : Int) : Int × Int :=
  let (hi, lo) :=
    if lo < 0 then
      let n := (-lo - 1) / base + 1
      (hi - n, lo + n * base)
    else (hi, lo)
  if lo ≥ base then
    let n := lo / base
    (hi + n, lo - n * base)
  else (hi, lo)

/-- Go's `daysSinceEpoch`: days from the absolute epoch to January 1 of `year`. -/
def daysSinceEpoch (year : Int) : Int :=
  let y := year - absoluteZeroYear
  -- Add in days from 400-year cycles.
  let n := y / 400
  let y := y - 400 * n
  let d := daysPer400Years * n
  -- Add in 100-year cycles.
  let n := y / 100
  let y := y - 100 * n
  let d := d + daysPer100Years * n
  -- Add in 4-year cycles.
  let n := y / 4
  let y := y - 4 * n
  let d := d + daysPer4Years * n
  -- Add in non-leap years.
  d + 365 * y

/-- Go's `time.Date(year, month, day, hour, min, sec, nsec, time.UTC)`. -/
def DateUTC (year month day hour min sec nsec : Int) : Time :=
  -- Normalize month, overflowing into year.
  let (year, m) := norm year (month - 1) 12
  let month := m + 1
  -- Normalize nsec, sec, min, hour, overflowing into day.
  let (sec, nsec) := norm sec nsec 1000000000
  let (min, sec) := norm min sec 60
  let (hour, min) := norm hour min 60
  let (day, hour) := norm day hour 24
  -- Compute days since the absolute epoch.
  let d := daysSinceEpoch year
  -- Add in days before this month.
  let d := d + daysBefore (month - 1)
  let d := if isLeap year ∧ month ≥ 3 then d + 1 else d
  -- Add in days before today.
  let d := d + (day - 1)
  -- Add in time elapsed today.
  let abs := d * secondsPerDay
  let abs := abs + (hour * secondsPerHour + min * secondsPerMinute + sec)
  { sec := abs - unixToAbsolute, nsec := nsec, offset := 0 }

/-! ## Formatting: `Time.Format` for the layout `timeFormat` -/

/-- The layout elements that occur in `timeFormat`. -/
inductive Std where
  | stdLongYear
  | stdZeroMonth
  | stdZeroDay
  | stdHour
  | stdZeroMinute
  | stdZeroSecond
  | stdNumTZ
  deriving DecidableEq, Repr

/-- The constant `timeFormat = "2006-01-02T15:04:05-0700"`, given as the
chunks that `nextStdChunk` cuts it into: each chunk is the literal text that
precedes a layout element, and the element.  Nothing follows the last
element. -/
def timeFormat : List (Bytes × Std) :=
  [ ([], .stdLongYear),          -- 2006
    ([45], .stdZeroMonth),       -- -01
    ([45], .stdZeroDay),         -- -02
    ([84], .stdHour),            -- T15
    ([58], .stdZeroMinute),      -- :04
    ([58], .stdZeroSecond),      -- :05
    ([], .stdNumTZ) ]            -- -0700

/-- Go's integer quotient, which truncates toward zero. -/
def quo (a b : Int) : Int := Int.sign a * Int.sign b * ((a.natAbs / b.natAbs : Nat) : Int)

/-- The decimal digits of `u`, most significant first. -/
def decimalDigits : Nat → Nat → Bytes
  | 0, _ => []
  | fuel + 1, u => if u < 10 then [48 + u] else decimalDigits fuel (u / 10) ++ [48 + u % 10]

/-- Go's `appendInt`: append the decimal form of `x`, zero-padded to `width`. -/
def appendInt (b : Bytes) (x : Int) (width : Nat) : Bytes :=
  let b := if x < 0 then b ++ [45] else b
  let u := x.natAbs
  -- 2-digit and 4-digit fields are the most common in time formats.
  if width = 2 ∧ u < 100 then b ++ [48 + u / 10, 48 + u % 10]
  else if width = 4 ∧ u < 10000 then
    b ++ [48 + u / 100 / 10, 48 + u / 100 % 10, 48 + u % 100 / 10, 48 + u % 100 % 10]
  else
    let ds := decimalDigits (u + 1) u
    b ++ List.replicate (width - ds.length) 48 ++ ds

/-- One iteration of the loop of `Time.appendFormat`: render one element. -/
def appendStd (t : Time) (b : Bytes) (std : Std) : Bytes :=
  let (year, month, day) := absDate t.abs
  let (hour, min, sec) := absClock t.abs
  match std with
  | .stdLongYear => appendInt b year 4
  | .stdZeroMonth => appendInt b month 2
  | .stdZeroDay => appendInt b day 2
  | .stdHour => appendInt b hour 2
  | .stdZeroMinute => appendInt b min 2
  | .stdZeroSecond => appendInt b sec 2
  | .stdNumTZ =>
    let zone := quo t.offset 60 -- convert to minutes
    let (b, zone) := if zone < 0 then (b ++ [45], -zone) else (b ++ [43], zone)
    let b := appendInt b (quo zone 60) 2
    appendInt b (zone % 60) 2

/-- Go's `Time.appendFormat`: literal text and element, chunk after chunk. -/
def Time.appendFormat (t : Time) : Bytes → List (Bytes × Std) → Bytes
  | b, [] => b
  | b, (lit, std) :: layout => Time.appendFormat t (appendStd t (b ++ lit) std) layout

/-- Go's `Time.Format`. -/
def Time.Format (t : Time) (layout : List (Bytes × Std)) : Bytes :=
  t.appendFormat [] layout

/-! ## Parsing: `time.Parse` for the layout `timeFormat` -/

/-- Go's `isDigit(s, i)`. -/
def isDigit (s : Bytes) (i : Nat) : Bool :=
  if s.length ≤ i then false
  else
    let c := s.getD i 0
    decide (48 ≤ c ∧ c ≤ 57)

/-- Go's `getnum`: a one- or two-digit number; two digits exactly when `fixed`.
The last component is the error flag (`errBad`). -/
def getnum (s : Bytes) (fixed : Bool) : Int × Bytes × Bool :=
  if !isDigit s 0 then (0, s, true)
  else if !isDigit s 1 then
    if fixed then (0, s, true)
    else (((s.getD 0 0 - 48 : Nat) : Int), s.drop 1, false)
  else ((((s.getD 0 0 - 48) * 10 + (s.getD 1 0 - 48) : Nat) : Int), s.drop 2, false)

/-- Go's `leadingInt`: the leading run of digits as a number, and the rest;
`none` on overflow (`errLeadingInt`). -/
def leadingInt : Bytes → Nat → Option (Nat × Bytes)
  | [], x => some (x, [])
  | c :: s, x =>
    if c < 48 ∨ c > 57 then some (x, c :: s)
    else if x > 2 ^ 63 / 10 then none
    else
      let x := x * 10 + c - 48
      if x > 2 ^ 63 then none else leadingInt s x

/-- Go's `atoi`: an optionally signed decimal integer; the flag is `errAtoi`. -/
def atoi (s : Bytes) : Int × Bool :=
  let (neg, s) :=
    match s with
    | c :: rest => if c = 45 ∨ c = 43 then (decide (c = 45), rest) else (false, s)
    | [] => (false, s)
  match leadingInt s 0 with
  | none => (0, true)
  | some (q, rem) =>
    if rem.length > 0 then (0, true)
    else (if neg then -(q : Int) else (q : Int), false)

/-- Go's `commaOrPeriod`. -/
def commaOrPeriod (b : Nat) : Bool := b = 46 ∨ b = 44

/-- The length of the leading run of digits. -/
def digitRun : Bytes → Nat
  | [] => 0
  | c :: s => if 48 ≤ c ∧ c ≤ 57 then digitRun s + 1 else 0

/-- Go's `parseNanoseconds(value, nbytes)`: nanoseconds, range error text, error
flag. -/
def parseNanoseconds (value : Bytes) (nbytes : Nat) : Int × String × Bool :=
  if !commaOrPeriod (value.getD 0 0) then (0, "", true)
  else
    let (value, nbytes) := if nbytes > 10 then (value.take 10, 10) else (value, nbytes)
    let (ns, err) := atoi ((value.take nbytes).drop 1)
    if err then (ns, "", true)
    else if ns < 0 then (ns, "fractional second", false)
    else
      -- We need nanoseconds, which means scaling by the number of missing digits.
      (ns * 10 ^ (10 - nbytes), "", false)

/-- Go's `skip(value, lit)`: the value after the literal text `lit`; `none` is
`errBad`.  The literals of `timeFormat` hold no space, so the branch of `skip`
that folds runs of spaces is left out. -/
def skip : Bytes → Bytes → Option Bytes
  | value, [] => some value
  | [], _ :: _ => none
  | v :: value, c :: lit => if v ≠ c then none else skip value lit

/-- The variables that `Parse` fills in while it walks the layout. -/
structure Parsed where
  year : Int := 0
  month : Int := -1
  day : Int := -1
  hour : Int := 0
  min : Int := 0
  sec : Int := 0
  nsec : Int := 0
  zoneOffset : Int := -1
  deriving DecidableEq, Repr

/-- What one iteration of the loop of `Parse` leaves behind. -/
structure Step where
  p : Parsed
  value : Bytes
  rangeErrString : String := ""
  err : Bool := false
  deriving DecidableEq, Repr

/-- The `switch std & stdMask` of `Parse`, for the elements of `timeFormat`. -/
def parseStd (std : Std) (p : Parsed) (value : Bytes) : Step :=
  match std with
  | .stdLongYear =>
    if value.length < 4 ∨ !isDigit value 0 then { p := p, value := value, err := true }
    else
      let (year, err) := atoi (value.take 4)
      { p := { p with year := year }, value := value.drop 4, err := err }
  | .stdZeroMonth =>
    let (month, value, err) := getnum value true
    { p := { p with month := month }, value := value, err := err,
      rangeErrString := if !err ∧ (month ≤ 0 ∨ 12 < month) then "month" else "" }
  | .stdZeroDay =>
    -- Any two-digit day is allowed here; it is validated after the loop.
    let (day, value, err) := getnum value true
    { p := { p with day := day }, value := value, err := err }
  | .stdHour =>
    let (hour, value, err) := getnum value false
    { p := { p with hour := hour }, value := value, err := err,
      rangeErrString := if hour < 0 ∨ 24 ≤ hour then "hour" else "" }
  | .stdZeroMinute =>
    let (min, value, err) := getnum value true
    { p := { p with min := min }, value := value, err := err,
      rangeErrString := if min < 0 ∨ 60 ≤ min then "minute" else "" }
  | .stdZeroSecond =>
    let (sec, value, err) := getnum value true
    let p := { p with sec := sec }
    if err then { p := p, value := value, err := true }
    else if sec < 0 ∨ 60 ≤ sec then { p := p, value := value, rangeErrString := "second" }
    else if value.length ≥ 2 ∧ commaOrPeriod (value.getD 0 0) ∧ isDigit value 1 then
      -- No fractional second in the layout but we have one in the input.
      let n := 2 + digitRun (value.drop 2)
      let (nsec, rangeErrString, err) := parseNanoseconds value n
      { p := { p with nsec := nsec }, value := value.drop n,
        rangeErrString := rangeErrString, err := err }
    else { p := p, value := value }
  | .stdNumTZ =>
    if value.length < 5 then { p := p, value := value, err := true }
    else
      let sign := value.take 1
      let hour := (value.drop 1).take 2
      let min := (value.drop 3).take 2
      let seconds : Bytes := [48, 48]
      let value := value.drop 5
      let (hr, _, err) := getnum hour true
      let (mm, err) := if !err then ((getnum min true).1, (getnum min true).2.2) else (0, err)
      let (ss, err) := if !err then ((getnum seconds true).1, (getnum seconds true).2.2) else (0, err)
      -- The range tests use > rather than >=, as some people do write
      -- offsets of 24 hours or 60 minutes or 60 seconds.
      let rangeErrString := if hr > 24 then "time zone offset hour" else ""
      let rangeErrString := if mm > 60 then "time zone offset minute" else rangeErrString
      let rangeErrString := if ss > 60 then "time zone offset second" else rangeErrString
      let zoneOffset := (hr * 60 + mm) * 60 + ss -- offset is in seconds
      if sign.getD 0 0 = 43 then
        { p := { p with zoneOffset := zoneOffset }, value := value,
          rangeErrString := rangeErrString, err := err }
      else if sign.getD 0 0 = 45 then
        { p := { p with zoneOffset := -zoneOffset }, value := value,
          rangeErrString := rangeErrString, err := err }
      else
        { p := { p with zoneOffset := zoneOffset }, value := value,
          rangeErrString := rangeErrString, err := true }

/-- The loop of `Parse`: skip the literal text, parse the element, stop at
the first failure; once the layout is used up, no text may remain. -/
def parseChunks : List (Bytes × Std) → Parsed → Bytes → Except ParseError (Parsed × Bytes)
  | [], p, value => if value.length ≠ 0 then .error .extraText else .ok (p, value)
  | (lit, std) :: layout, p, value =>
    match skip value lit with
    | none => .error .bad
    | some value =>
      let r := parseStd std p value
      if r.rangeErrString ≠ "" then .error (.outOfRange r.rangeErrString)
      else if r.err then .error .bad
      else parseChunks layout r.p r.value

/-- Go's `time.Parse(layout, value)`. -/
def Parse (layout : List (Bytes × Std)) (value : Bytes) : Except ParseError Time :=
  match parseChunks layout {} value with
  | .error e => .error e
  | .ok (p, _) =>
    let month := if p.month < 0 then 1 else p.month
    let day := if p.day < 0 then 1 else p.day
    -- Validate the day of the month.
    if day < 1 ∨ day > daysIn month p.year then .error (.outOfRange "day")
    else
      let t := DateUTC p.year month day p.hour p.min p.sec p.nsec
      if p.zoneOffset ≠ -1 then
        -- t.addSec(-zoneOffset), then the location with the given offset
        -- (Local when it has that offset at t, else a fabricated fixed zone).
        .ok { t with sec := t.sec - p.zoneOffset, offset := p.zoneOffset }
      else .ok t

/-! ## Package `nulls` -/

/-- A dynamically typed value (`interface{}` / `driver.Value`), by its
dynamic type. -/
inductive Value where
  | nil
  | int64 (n : Int)
  | float64 (bits : Nat)
  | bool (b : Bool)
  | bytes (b : Bytes)
  | string (s : Bytes)
  | time (t : Time)
  | other (typeName : String)
  deriving DecidableEq, Repr

/-- NullTime replaces sql.NullTime with an implementation that supports
proper JSON encoding/decoding. -/
structure NullTime where
  Time : Time
  Valid : Bool
  deriving DecidableEq, Repr

/-- NewNullTime returns a new, properly instantiated NullTime object. -/
def NewNullTime (t : Time) : NullTime := { Time := t, Valid := true }

/-- The type assertion `value.(time.Time)` in its two-result form. -/
def assertTime (value : Value) : Time × Bool :=
  match value with
  | .time t => (t, true)
  | _ => (zeroTime, false)

/-- Scan implements the Scanner interface. -/
def NullTime.Scan (_ns : NullTime) (value : Value) : NullTime × Option Error :=
  let (t, ok) := assertTime value
  ({ Time := t, Valid := ok }, none)

/-- Value implements the driver Valuer interface. -/
def NullTime.Value (ns : NullTime) : Value × Option Error :=
  if !ns.Valid then (.nil, none)
  else (.time ns.Time, none)

/-- Go's `json.Marshal(nil)`: the four bytes `null`. -/
def jsonMarshalNil : Option Bytes × Option Error := (some [110, 117, 108, 108], none)

/-- MarshalJSON marshals the underlying value to a proper JSON
representation.  A `nil` byte slice is `none`. -/
def NullTime.MarshalJSON (ns : NullTime) : Option Bytes × Option Error :=
  if ns.Valid then
    let y := ns.Time.Year
    if y < 0 ∨ y ≥ 10000 then
      (none, some (.errorsNew "NullTime.MarshalJSON: year outside of range [0,9999]"))
    else (some (ns.Time.Format timeFormat), none)
  else jsonMarshalNil

/-- UnmarshalJSON will unmarshal a JSON value into the proper representation
of that value. -/
def NullTime.UnmarshalJSON (ns : NullTime) (text : Bytes) : NullTime × Option Error :=
  let ns := { ns with Valid := false }
  let txt := text
  if txt = [110, 117, 108, 108] ∨ txt = [] then (ns, none)
  else
    -- Fractional seconds are handled implicitly by Parse.
    match Parse timeFormat txt with
    | .ok t => ({ ns with Time := t, Valid := true }, none)
    | .error err => (ns, some (.parse err))

/-! ## The layout in the words of the specification -/

/-- A two-digit, zero-padded decimal field. -/
def twoDigits (n : Nat) : Bytes := [48 + n / 10, 48 + n % 10]

/-- A four-digit, zero-padded decimal field. -/
def fourDigits (n : Nat) : Bytes :=
  [48 + n / 100 / 10, 48 + n / 100 % 10, 48 + n % 100 / 10, 48 + n % 100 % 10]

/-- The text `YYYY-MM-DDThh:mm:ss±hhmm` for the given field values: 4-digit
year, zero-padded fields, literal `T`, signed 4-digit UTC offset without a
colon. -/
def render (year month day hour min sec : Nat) (neg : Bool) (zh zm : Nat) : Bytes :=
  fourDigits year ++ [45] ++ twoDigits month ++ [45] ++ twoDigits day ++ [84] ++
    twoDigits hour ++ [58] ++ twoDigits min ++ [58] ++ twoDigits sec ++
    [if neg then 45 else 43] ++ twoDigits zh ++ twoDigits zm

/-- The fixed layout `YYYY-MM-DDThh:mm:ss±hhmm` as a property of a text:
24 bytes, `-` at indices 4 and 7, `T` at index 10, `:` at indices 13 and 16,
a sign at index 19, and a decimal digit everywhere else. -/
def MatchesLayout (b : Bytes) : Prop :=
  b.length = 24 ∧ b.getD 4 0 = 45 ∧ b.getD 7 0 = 45 ∧ b.getD 10 0 = 84 ∧
    b.getD 13 0 = 58 ∧ b.getD 16 0 = 58 ∧ (b.getD 19 0 = 43 ∨ b.getD 19 0 = 45) ∧
    ∀ i, i < 24 → i ∉ [4, 7, 10, 13, 16, 19] → isDigit b i = true

instance (b : Bytes) : Decidable (MatchesLayout b) := by
  unfold MatchesLayout
  infer_instance

/-- A decimal digit, as a byte. -/
def IsDigitByte (c : Nat) : Prop := 48 ≤ c ∧ c ≤ 57

/-- The shape of the texts that `time.Parse` can accept under `timeFormat`:
the fixed layout `YYYY-MM-DDThh:mm:ss±hhmm`, except that the hour may have a
single digit, and that a fraction of a second, `.` or `,` followed by one or
more digits, may stand between the seconds and the sign. -/
def AcceptedShape (text : Bytes) : Prop :=
  ∃ (y1 y2 y3 y4 m1 m2 d1 d2 : Nat) (hh : Bytes) (i1 i2 s1 s2 : Nat) (frac : Bytes)
    (sg o1 o2 o3 o4 : Nat),
    text = [y1, y2, y3, y4, 45, m1, m2, 45, d1, d2, 84] ++ hh ++ [58, i1, i2, 58, s1, s2]
        ++ frac ++ [sg, o1, o2, o3, o4] ∧
      (∀ c ∈ [y1, y2, y3, y4, m1, m2, d1, d2, i1, i2, s1, s2, o1, o2, o3, o4], IsDigitByte c) ∧
      (hh.length = 1 ∨ hh.length = 2) ∧ (∀ c ∈ hh, IsDigitByte c) ∧
      (frac = [] ∨ ∃ sep ds, frac = sep :: ds ∧ (sep = 46 ∨ sep = 44) ∧ ds ≠ [] ∧
        ∀ c ∈ ds, IsDigitByte c) ∧
      (sg = 43 ∨ sg = 45)

/-- A fraction of a second as a text may carry it after the seconds: nothing,
or a period or comma followed by one or more decimal digits. -/
def IsFraction (frac : Bytes) : Prop :=
  frac = [] ∨ ∃ sep ds, frac = sep :: ds ∧ (sep = 46 ∨ sep = 44) ∧ ds ≠ [] ∧
    ∀ c ∈ ds, IsDigitByte c

/-- The number that a run of decimal digits denotes. -/
def digitsValue (ds : Bytes) : Nat := ds.foldl (fun acc c => acc * 10 + (c - 48)) 0

/-- The nanoseconds that a fraction of a second denotes: its first nine
digits, read as billionths. -/
def fracNanos (frac : Bytes) : Int :=
  match frac with
  | [] => 0
  | _ :: ds => ((digitsValue (ds.take 9) * 10 ^ (9 - (ds.take 9).length) : Nat) : Int)

/-- The text `YYYY-MM-DDThh:mm:ss` + fraction + `±hhmm` for the given field
values: the fixed layout with a fraction of a second after the seconds. -/
def renderFrac (year month day hour min sec : Nat) (frac : Bytes) (neg : Bool) (zh zm : Nat) :
    Bytes :=
  fourDigits year ++ [45] ++ twoDigits month ++ [45] ++ twoDigits day ++ [84] ++
    twoDigits hour ++ [58] ++ twoDigits min ++ [58] ++ twoDigits sec ++ frac ++
    [if neg then 45 else 43] ++ twoDigits zh ++ twoDigits zm

/-- The UTC offset, in seconds, that the text `±hhmm` denotes. -/
def zoneSeconds (neg : Bool) (zh zm : Nat) : Int :=
  if neg = true then -(((zh * 60 + zm) * 60 : Nat) : Int) else (((zh * 60 + zm) * 60 : Nat) : Int)

/-! ## The calendar: `absDate` and `Date` are inverse to each other -/

/-- The cycle counts behind `absYearDay`: 400-, 100-, 4- and 1-year cycles and
the day of the year that remains. -/
theorem absYearDay_cycles (abs : Int) :
    ∃ n1 n2 n3 n4 d : Int,
      absYearDay abs = (400 * n1 + 100 * n2 + 4 * n3 + n4 + absoluteZeroYear, d) ∧
      abs / 86400 = 146097 * n1 + 36524 * n2 + 1461 * n3 + 365 * n4 + d ∧
      0 ≤ n2 ∧ n2 ≤ 3 ∧ 0 ≤ n3 ∧ n3 ≤ 24 ∧ 0 ≤ n4 ∧ n4 ≤ 3 ∧ 0 ≤ d ∧ d ≤ 365 ∧
      (d = 365 → n4 = 3 ∧ (n3 = 24 → n2 = 3)) := by
  simp only [absYearDay, secondsPerDay, daysPer400Years, daysPer100Years, daysPer4Years]
  generalize abs / 86400 = D
  generalize hn1 : D / 146097 = n1
  have b1 : 146097 * n1 ≤ D ∧ D < 146097 * n1 + 146097 := by omega
  generalize ha : (D - 146097 * n1) / 36524 = a
  have b2 : 36524 * a ≤ D - 146097 * n1 ∧ D - 146097 * n1 < 36524 * a + 36524 := by omega
  have b2' : 0 ≤ a ∧ a ≤ 4 := by omega
  generalize hn2 : a - a / 4 = n2
  have b3 : 0 ≤ n2 ∧ n2 ≤ 3 ∧ (a ≤ 3 → n2 = a) ∧ (a = 4 → n2 = 3) := by omega
  generalize hn3 : (D - 146097 * n1 - 36524 * n2) / 1461 = n3
  have b4 : 1461 * n3 ≤ D - 146097 * n1 - 36524 * n2 ∧
      D - 146097 * n1 - 36524 * n2 < 1461 * n3 + 1461 := by omega
  have b4' : 0 ≤ n3 ∧ n3 ≤ 24 := by omega
  generalize hc : (D - 146097 * n1 - 36524 * n2 - 1461 * n3) / 365 = c
  have b5 : 365 * c ≤ D - 146097 * n1 - 36524 * n2 - 1461 * n3 ∧
      D - 146097 * n1 - 36524 * n2 - 1461 * n3 < 365 * c + 365 := by omega
  have b5' : 0 ≤ c ∧ c ≤ 4 := by omega
  generalize hn4 : c - c / 4 = n4
  have b6 : 0 ≤ n4 ∧ n4 ≤ 3 ∧ (c ≤ 3 → n4 = c) ∧ (c = 4 → n4 = 3) := by omega
  refine ⟨n1, n2, n3, n4, _, rfl, ?_⟩
  omega

theorem isLeap_cycles (n1 n2 n3 n4 : Int) (h2 : 0 ≤ n2 ∧ n2 ≤ 3) (h3 : 0 ≤ n3 ∧ n3 ≤ 24)
    (h4 : 0 ≤ n4 ∧ n4 ≤ 3) :
    isLeap (400 * n1 + 100 * n2 + 4 * n3 + n4 + absoluteZeroYear) = true ↔
      n4 = 3 ∧ (n3 = 24 → n2 = 3) := by
  simp only [isLeap, absoluteZeroYear, Bool.and_eq_true, Bool.or_eq_true, beq_iff_eq, bne_iff_ne,
    ne_eq]
  omega

theorem daysSinceEpoch_cycles (n1 n2 n3 n4 : Int) (h2 : 0 ≤ n2 ∧ n2 ≤ 3)
    (h3 : 0 ≤ n3 ∧ n3 ≤ 24) (h4 : 0 ≤ n4 ∧ n4 ≤ 3) :
    daysSinceEpoch (400 * n1 + 100 * n2 + 4 * n3 + n4 + absoluteZeroYear) =
      146097 * n1 + 36524 * n2 + 1461 * n3 + 365 * n4 := by
  simp only [daysSinceEpoch, daysPer400Years, daysPer100Years, daysPer4Years]
  have e : 400 * n1 + 100 * n2 + 4 * n3 + n4 + absoluteZeroYear - absoluteZeroYear
      = 400 * n1 + 100 * n2 + 4 * n3 + n4 := by omega
  rw [e]
  omega

/-- The year of `absYearDay` and its day of the year: the days before the year
plus the day of the year are the days since the absolute epoch, and the day of
the year lies within the year. -/
theorem absYearDay_spec (abs : Int) :
    daysSinceEpoch (absYearDay abs).1 + (absYearDay abs).2 = abs / 86400 ∧
      0 ≤ (absYearDay abs).2 ∧
      (absYearDay abs).2 < (if isLeap (absYearDay abs).1 = true then 366 else 365) := by
  obtain ⟨n1, n2, n3, n4, d, he, hD, h20, h21, h30, h31, h40, h41, hd0, hd1, hd⟩ :=
    absYearDay_cycles abs
  have hl := isLeap_cycles n1 n2 n3 n4 ⟨h20, h21⟩ ⟨h30, h31⟩ ⟨h40, h41⟩
  have hs := daysSinceEpoch_cycles n1 n2 n3 n4 ⟨h20, h21⟩ ⟨h30, h31⟩ ⟨h40, h41⟩
  rw [he]
  simp only [hs, hl]
  refine ⟨by omega, hd0, ?_⟩
  split <;> omega

theorem daysBefore_cases (m : Int) :
    (m = 0 ∧ daysBefore m = 0) ∨ (m = 1 ∧ daysBefore m = 31) ∨ (m = 2 ∧ daysBefore m = 59) ∨
    (m = 3 ∧ daysBefore m = 90) ∨ (m = 4 ∧ daysBefore m = 120) ∨ (m = 5 ∧ daysBefore m = 151) ∨
    (m = 6 ∧ daysBefore m = 181) ∨ (m = 7 ∧ daysBefore m = 212) ∨ (m = 8 ∧ daysBefore m = 243) ∨
    (m = 9 ∧ daysBefore m = 273) ∨ (m = 10 ∧ daysBefore m = 304) ∨
    (m = 11 ∧ daysBefore m = 334) ∨ ((m < 0 ∨ 11 < m) ∧ daysBefore m = 365) := by
  have h : m = 0 ∨ m = 1 ∨ m = 2 ∨ m = 3 ∨ m = 4 ∨ m = 5 ∨ m = 6 ∨ m = 7 ∨ m = 8 ∨ m = 9 ∨
      m = 10 ∨ m = 11 ∨ (m < 0 ∨ 11 < m) := by omega
  rcases h with h | h | h | h | h | h | h | h | h | h | h | h | h
  · subst h; exact Or.inl ⟨rfl, by decide⟩
  · subst h; exact Or.inr (Or.inl ⟨rfl, by decide⟩)
  · subst h; exact Or.inr (Or.inr (Or.inl ⟨rfl, by decide⟩))
  · subst h; exact Or.inr (Or.inr (Or.inr (Or.inl ⟨rfl, by decide⟩)))
  · subst h; exact Or.inr (Or.inr (Or.inr (Or.inr (Or.inl ⟨rfl, by decide⟩))))
  · subst h; exact Or.inr (Or.inr (Or.inr (Or.inr (Or.inr (Or.inl ⟨rfl, by decide⟩)))))
  · subst h; exact Or.inr (Or.inr (Or.inr (Or.inr (Or.inr (Or.inr (Or.inl ⟨rfl, by decide⟩))))))
  · subst h; exact Or.inr (Or.inr (Or.inr (Or.inr (Or.inr (Or.inr (Or.inr (Or.inl ⟨rfl, by decide⟩)))))))
  · subst h; exact Or.inr (Or.inr (Or.inr (Or.inr (Or.inr (Or.inr (Or.inr (Or.inr (Or.inl ⟨rfl, by decide⟩))))))))
  · subst h; exact Or.inr (Or.inr (Or.inr (Or.inr (Or.inr (Or.inr (Or.inr (Or.inr (Or.inr (Or.inl ⟨rfl, by decide⟩)))))))))
  · subst h; exact Or.inr (Or.inr (Or.inr (Or.inr (Or.inr (Or.inr (Or.inr (Or.inr (Or.inr (Or.inr (Or.inl ⟨rfl, by decide⟩))))))))))
  · subst h; exact Or.inr (Or.inr (Or.inr (Or.inr (Or.inr (Or.inr (Or.inr (Or.inr (Or.inr (Or.inr (Or.inr (Or.inl ⟨rfl, by decide⟩)))))))))))
  · have e : daysBefore m = 365 := by
      unfold daysBefore
      rw [if_neg (by omega : ¬ m = 0), if_neg (by omega : ¬ m = 1), if_neg (by omega : ¬ m = 2),
        if_neg (by omega : ¬ m = 3), if_neg (by omega : ¬ m = 4), if_neg (by omega : ¬ m = 5),
        if_neg (by omega : ¬ m = 6), if_neg (by omega : ¬ m = 7), if_neg (by omega : ¬ m = 8),
        if_neg (by omega : ¬ m = 9), if_neg (by omega : ¬ m = 10), if_neg (by omega : ¬ m = 11)]
    exact Or.inr (Or.inr (Or.inr (Or.inr (Or.inr (Or.inr (Or.inr (Or.inr (Or.inr (Or.inr (Or.inr (Or.inr (⟨h, e⟩))))))))))))

theorem daysBefore_lit :
    daysBefore 0 = 0 ∧ daysBefore 1 = 31 ∧ daysBefore 2 = 59 ∧ daysBefore 3 = 90 ∧
    daysBefore 4 = 120 ∧ daysBefore 5 = 151 ∧ daysBefore 6 = 181 ∧ daysBefore 7 = 212 ∧
    daysBefore 8 = 243 ∧ daysBefore 9 = 273 ∧ daysBefore 10 = 304 ∧ daysBefore 11 = 334 ∧
    daysBefore 12 = 365 := by
  refine ⟨?_, ?_, ?_, ?_, ?_, ?_, ?_, ?_, ?_, ?_, ?_, ?_, ?_⟩ <;> decide

/-- The month estimate of `absDate`: from the day of a non-leap year to the
month and the day of the month. -/
theorem monthOfDay_spec (year day : Int) (h0 : 0 ≤ day) (h1 : day ≤ 364) :
    ∃ m d : Int,
      (if day ≥ daysBefore (day / 31 + 1) then
          (year, day / 31 + 2, day - daysBefore (day / 31 + 1) + 1)
        else (year, day / 31 + 1, day - daysBefore (day / 31) + 1)) = (year, m, d) ∧
      1 ≤ m ∧ m ≤ 12 ∧ 1 ≤ d ∧ d ≤ daysBefore m - daysBefore (m - 1) ∧
      daysBefore (m - 1) + (d - 1) = day ∧ (m ≤ 2 ↔ day < 59) ∧ (m = 2 → d ≤ 28) := by
  generalize hm : day / 31 = m0
  have hb : 0 ≤ m0 ∧ m0 ≤ 11 := by omega
  obtain ⟨hb0, hb1⟩ := hb
  interval_cases m0 <;> simp only [Int.reduceAdd, Int.reduceSub, daysBefore_lit] <;>
    split_ifs <;> refine ⟨_, _, rfl, ?_⟩ <;>
    simp only [Int.reduceAdd, Int.reduceSub, daysBefore_lit] <;> omega

/-- The month and day that `absDate` computes are a date of the calendar, and
the day count of `Date` brings back the day of the year. -/
theorem absDate_spec (abs : Int) :
    (absDate abs).1 = (absYearDay abs).1 ∧
      1 ≤ (absDate abs).2.1 ∧ (absDate abs).2.1 ≤ 12 ∧
      1 ≤ (absDate abs).2.2 ∧ (absDate abs).2.2 ≤ daysIn (absDate abs).2.1 (absDate abs).1 ∧
      daysBefore ((absDate abs).2.1 - 1)
          + (if isLeap (absDate abs).1 = true ∧ (absDate abs).2.1 ≥ 3 then 1 else 0)
          + ((absDate abs).2.2 - 1) = (absYearDay abs).2 := by
  obtain ⟨-, h0, h1⟩ := absYearDay_spec abs
  simp only [absDate, daysIn]
  generalize (absYearDay abs).1 = year at *
  generalize (absYearDay abs).2 = yday at *
  cases hL : isLeap year
  · rw [hL] at h1
    simp only [Bool.false_eq_true, false_and, and_false, if_false] at h1 ⊢
    obtain ⟨m, d, he, hm⟩ := monthOfDay_spec year yday h0 (by omega)
    rw [he]
    simp only [hL, Bool.false_eq_true, false_and, and_false, if_false, true_and]
    obtain ⟨a1, a2, a3, a4, a5, -, -⟩ := hm
    exact ⟨a1, a2, a3, a4, by omega⟩
  · rw [hL] at h1
    simp only [true_and, and_true, if_true] at h1 ⊢
    by_cases hleapday : yday = 31 + 29 - 1
    · rw [if_pos hleapday]
      simp only [hL, true_and, and_true, if_true, daysBefore_lit, Int.reduceSub]
      omega
    · rw [if_neg hleapday]
      generalize hday : (if yday > 31 + 29 - 1 then yday - 1 else yday) = day
      have hd : 0 ≤ day ∧ day ≤ 364 ∧ (yday < 59 ∧ day = yday ∨ yday > 59 ∧ day = yday - 1) := by
        split_ifs at hday <;> omega
      obtain ⟨m, d, he, hm⟩ := monthOfDay_spec year day hd.1 hd.2.1
      rw [he]
      simp only [hL, true_and, and_true, if_true]
      obtain ⟨a1, a2, a3, a4, a5, a6, a7⟩ := hm
      refine ⟨a1, a2, a3, ?_, ?_⟩
      · split_ifs <;> omega
      · split_ifs <;> omega

/-- The clock fields of `absClock` are in range and add up to the second of
the day. -/
theorem absClock_spec (abs : Int) :
    0 ≤ (absClock abs).1 ∧ (absClock abs).1 < 24 ∧
      0 ≤ (absClock abs).2.1 ∧ (absClock abs).2.1 < 60 ∧
      0 ≤ (absClock abs).2.2 ∧ (absClock abs).2.2 < 60 ∧
      (absClock abs).1 * 3600 + (absClock abs).2.1 * 60 + (absClock abs).2.2 = abs % 86400 := by
  simp only [absClock, secondsPerDay, secondsPerHour, secondsPerMinute]
  omega

/-- A field that is already in range is left alone by `norm`. -/
theorem norm_id (hi lo base : Int) (h0 : 0 ≤ lo) (h1 : lo < base) :
    norm hi lo base = (hi, lo) := by
  unfold norm
  rw [if_neg (not_lt.mpr h0)]
  exact if_neg (not_le.mpr h1)

/-- In range, `Date` counts the days of the year, month and day and adds the clock. -/
theorem DateUTC_eq (year month day hour min sec nsec : Int)
    (hm : 1 ≤ month ∧ month ≤ 12) (hh : 0 ≤ hour ∧ hour < 24) (hmi : 0 ≤ min ∧ min < 60)
    (hs : 0 ≤ sec ∧ sec < 60) (hn : 0 ≤ nsec ∧ nsec < 1000000000) :
    DateUTC year month day hour min sec nsec =
      { sec := (daysSinceEpoch year + daysBefore (month - 1)
                  + (if isLeap year = true ∧ month ≥ 3 then 1 else 0) + (day - 1)) * 86400
                + (hour * 3600 + min * 60 + sec) - unixToAbsolute,
        nsec := nsec, offset := 0 } := by
  unfold DateUTC
  rw [norm_id year (month - 1) 12 (by omega) (by omega), norm_id sec nsec 1000000000 hn.1 hn.2]
  simp only []
  rw [norm_id min sec 60 hs.1 hs.2]
  simp only []
  rw [norm_id hour min 60 hmi.1 hmi.2]
  simp only []
  rw [norm_id day hour 24 hh.1 hh.2]
  simp only [secondsPerDay, secondsPerHour, secondsPerMinute, sub_add_cancel]
  congr 3
  split_ifs <;> simp

/-- The function `Date` undoes `absDate` and `absClock`: the calendar fields of an absolute
time denote that time again. -/
theorem DateUTC_absDate (abs nsec : Int) (hn : 0 ≤ nsec ∧ nsec < 1000000000) :
    DateUTC (absDate abs).1 (absDate abs).2.1 (absDate abs).2.2
        (absClock abs).1 (absClock abs).2.1 (absClock abs).2.2 nsec =
      { sec := abs - unixToAbsolute, nsec := nsec, offset := 0 } := by
  obtain ⟨c1, c2, c3, c4, c5, c6, c7⟩ := absClock_spec abs
  obtain ⟨d1, d2, d3, d4, d5, d6⟩ := absDate_spec abs
  obtain ⟨y1, -, -⟩ := absYearDay_spec abs
  rw [DateUTC_eq _ _ _ _ _ _ _ ⟨d2, d3⟩ ⟨c1, c2⟩ ⟨c3, c4⟩ ⟨c5, c6⟩ hn]
  congr 1
  rw [← d1] at y1
  generalize daysSinceEpoch (absDate abs).1 = a at *
  omega

/-! ## Formatting -/

theorem quo_nonneg (a : Int) (h : 0 ≤ a) : quo a 60 = a / 60 := by
  unfold quo
  rw [show Int.sign 60 = 1 from rfl, show Int.natAbs 60 = 60 from rfl]
  rcases h.eq_or_lt with h0 | h0
  · subst h0; decide
  · rw [Int.sign_eq_one_of_pos h0]
    omega

theorem quo_neg (a : Int) (h : a < 0) : quo a 60 = -((-a) / 60) := by
  unfold quo
  rw [Int.sign_eq_neg_one_of_neg h, show Int.sign 60 = 1 from rfl,
    show Int.natAbs 60 = 60 from rfl]
  omega

theorem appendInt_two (b : Bytes) (x : Int) (h0 : 0 ≤ x) (h1 : x < 100) :
    appendInt b x 2 = b ++ twoDigits x.toNat := by
  have e : x.natAbs = x.toNat := by omega
  have hx : ¬ x < 0 := by omega
  have hu : x.toNat < 100 := by omega
  simp [appendInt, hx, e, hu, twoDigits]

theorem appendInt_four (b : Bytes) (x : Int) (h0 : 0 ≤ x) (h1 : x < 10000) :
    appendInt b x 4 = b ++ fourDigits x.toNat := by
  have e : x.natAbs = x.toNat := by omega
  have hx : ¬ x < 0 := by omega
  have hu : x.toNat < 10000 := by omega
  simp [appendInt, hx, e, hu, fourDigits]

/-- The date fields of `absDate` fit their columns. -/
theorem absDate_range (t : Time) (hy : 0 ≤ t.Year ∧ t.Year ≤ 9999) :
    (0 ≤ (absDate t.abs).1 ∧ (absDate t.abs).1 < 10000) ∧
      (1 ≤ (absDate t.abs).2.1 ∧ (absDate t.abs).2.1 ≤ 12) ∧
      (1 ≤ (absDate t.abs).2.2 ∧ (absDate t.abs).2.2 < 100) := by
  obtain ⟨d1, d2, d3, d4, d5, -⟩ := absDate_spec t.abs
  have d6 : (absDate t.abs).2.2 < 100 := by
    have := daysBefore_cases (absDate t.abs).2.1
    have := daysBefore_cases ((absDate t.abs).2.1 - 1)
    unfold daysIn at d5
    split_ifs at d5 <;> omega
  refine ⟨?_, ⟨d2, d3⟩, ⟨d4, d6⟩⟩
  rw [d1]
  unfold Time.Year at hy
  omega

theorem appendStd_date (t : Time) (b : Bytes) (hy : 0 ≤ t.Year ∧ t.Year ≤ 9999) :
    appendStd t b .stdLongYear = b ++ fourDigits (absDate t.abs).1.toNat ∧
      appendStd t b .stdZeroMonth = b ++ twoDigits (absDate t.abs).2.1.toNat ∧
      appendStd t b .stdZeroDay = b ++ twoDigits (absDate t.abs).2.2.toNat := by
  obtain ⟨h1, h2, h3⟩ := absDate_range t hy
  refine ⟨?_, ?_, ?_⟩
  · exact appendInt_four b (absDate t.abs).1 h1.1 h1.2
  · exact appendInt_two b (absDate t.abs).2.1 (by omega) (by omega)
  · exact appendInt_two b (absDate t.abs).2.2 (by omega) h3.2

theorem appendStd_clock (t : Time) (b : Bytes) :
    appendStd t b .stdHour = b ++ twoDigits (absClock t.abs).1.toNat ∧
      appendStd t b .stdZeroMinute = b ++ twoDigits (absClock t.abs).2.1.toNat ∧
      appendStd t b .stdZeroSecond = b ++ twoDigits (absClock t.abs).2.2.toNat := by
  obtain ⟨c1, c2, c3, c4, c5, c6, -⟩ := absClock_spec t.abs
  refine ⟨?_, ?_, ?_⟩
  · exact appendInt_two b (absClock t.abs).1 c1 (by omega)
  · exact appendInt_two b (absClock t.abs).2.1 c3 (by omega)
  · exact appendInt_two b (absClock t.abs).2.2 c5 (by omega)

theorem appendStd_zone (t : Time) (b : Bytes) (hz : t.offset.natAbs / 60 / 60 < 100) :
    appendStd t b .stdNumTZ =
      b ++ [if decide (t.offset ≤ -60) = true then 45 else 43] ++
        twoDigits (t.offset.natAbs / 60 / 60) ++ twoDigits (t.offset.natAbs / 60 % 60) := by
  have hq : quo t.offset 60 < 0 ↔ t.offset ≤ -60 := by
    rcases lt_or_le t.offset 0 with h | h
    · rw [quo_neg _ h]; omega
    · rw [quo_nonneg _ h]; omega
  have hq' : (if quo t.offset 60 < 0 then -quo t.offset 60 else quo t.offset 60)
      = ((t.offset.natAbs / 60 : Nat) : Int) := by
    rcases lt_or_le t.offset 0 with h | h
    · rw [quo_neg _ h]; split_ifs <;> omega
    · rw [quo_nonneg _ h]; split_ifs <;> omega
  simp only [appendStd]
  by_cases hneg : quo t.offset 60 < 0
  · rw [if_pos hneg] at hq'
    rw [if_pos hneg]
    simp only [hq', decide_eq_true_eq, if_pos (hq.mp hneg)]
    rw [quo_nonneg _ (by omega), appendInt_two _ _ (by omega) (by omega),
      appendInt_two _ _ (by omega) (by omega)]
    congr 2
  · rw [if_neg hneg] at hq'
    rw [if_neg hneg]
    simp only [hq', decide_eq_true_eq, if_neg (fun h => hneg (hq.mpr h))]
    rw [quo_nonneg _ (by omega), appendInt_two _ _ (by omega) (by omega),
      appendInt_two _ _ (by omega) (by omega)]
    congr 2

/-- The text of `Format` under `timeFormat`, for a year of four digits and an offset of
less than a hundred hours: the fields of the local date and clock in the fixed
layout. -/
theorem Format_eq (t : Time) (hy : 0 ≤ t.Year ∧ t.Year ≤ 9999)
    (hz : t.offset.natAbs / 60 / 60 < 100) :
    t.Format timeFormat =
      render (absDate t.abs).1.toNat (absDate t.abs).2.1.toNat (absDate t.abs).2.2.toNat
        (absClock t.abs).1.toNat (absClock t.abs).2.1.toNat (absClock t.abs).2.2.toNat
        (decide (t.offset ≤ -60)) (t.offset.natAbs / 60 / 60) (t.offset.natAbs / 60 % 60) := by
  simp only [Time.Format, timeFormat, Time.appendFormat, (appendStd_date t _ hy).1,
    (appendStd_date t _ hy).2.1, (appendStd_date t _ hy).2.2, (appendStd_clock t _).1,
    (appendStd_clock t _).2.1, (appendStd_clock t _).2.2, appendStd_zone t _ hz, render,
    List.nil_append, List.append_nil, List.append_assoc]

/-! ## Parsing what `Format` prints -/

theorem getnum_digits (a b : Nat) (ha : a ≤ 9) (hb : b ≤ 9) (rest : Bytes) (fixed : Bool) :
    getnum ((48 + a) :: (48 + b) :: rest) fixed = (((a * 10 + b : Nat) : Int), rest, false) := by
  have h1 : ¬ 57 < 48 + a := by omega
  have h2 : ¬ 57 < 48 + b := by omega
  simp [getnum, isDigit, h1, h2]

theorem getnum_twoDigits (n : Nat) (h : n < 100) (rest : Bytes) (fixed : Bool) :
    getnum (twoDigits n ++ rest) fixed = ((n : Int), rest, false) := by
  have h3 : n / 10 * 10 + n % 10 = n := by omega
  have := getnum_digits (n / 10) (n % 10) (by omega) (by omega) rest fixed
  rw [h3] at this
  exact this

theorem leadingInt_digit (a : Nat) (ha : a ≤ 9) (s : Bytes) (x : Nat) (hx : x < 100000) :
    leadingInt ((48 + a) :: s) x = leadingInt s (x * 10 + a) := by
  have h1 : ¬ (48 + a < 48 ∨ 48 + a > 57) := by omega
  have h2 : ¬ x > 2 ^ 63 / 10 := by norm_num; omega
  have h3 : ¬ x * 10 + a > 2 ^ 63 := by norm_num; omega
  have h4 : x * 10 + (48 + a) - 48 = x * 10 + a := by omega
  simp only [leadingInt, if_neg h1, if_neg h2, h4, if_neg h3]

theorem atoi_digits (a b c d : Nat) (ha : a ≤ 9) (hb : b ≤ 9) (hc : c ≤ 9) (hd : d ≤ 9) :
    atoi [48 + a, 48 + b, 48 + c, 48 + d] =
      (((a * 1000 + b * 100 + c * 10 + d : Nat) : Int), false) := by
  have e : leadingInt [48 + a, 48 + b, 48 + c, 48 + d] 0
      = some (a * 1000 + b * 100 + c * 10 + d, []) := by
    rw [leadingInt_digit a ha _ _ (by omega), leadingInt_digit b hb _ _ (by omega),
      leadingInt_digit c hc _ _ (by omega), leadingInt_digit d hd _ _ (by omega)]
    simp only [leadingInt]
    congr 2
    omega
  have h1 : ¬ (48 + a = 45 ∨ 48 + a = 43) := by omega
  simp [atoi, if_neg h1, e]

theorem atoi_fourDigits (n : Nat) (h : n < 10000) :
    atoi (fourDigits n) = ((n : Int), false) := by
  have e : n / 100 / 10 * 1000 + n / 100 % 10 * 100 + n % 100 / 10 * 10 + n % 100 % 10 = n := by
    omega
  have := atoi_digits (n / 100 / 10) (n / 100 % 10) (n % 100 / 10) (n % 100 % 10) (by omega)
    (by omega) (by omega) (by omega)
  rw [e] at this
  exact this

theorem parseStd_longYear (p : Parsed) (n : Nat) (h : n < 10000) (rest : Bytes) :
    parseStd .stdLongYear p (fourDigits n ++ rest) =
      { p := { p with year := n }, value := rest } := by
  have h1 : ¬ ((fourDigits n ++ rest).length < 4 ∨ (!isDigit (fourDigits n ++ rest) 0) = true) := by
    have : ¬ 57 < 48 + n / 100 / 10 := by omega
    simp [fourDigits, isDigit, this]
  have h2 : (fourDigits n ++ rest).take 4 = fourDigits n := by simp [fourDigits]
  have h3 : (fourDigits n ++ rest).drop 4 = rest := by simp [fourDigits]
  simp only [parseStd, if_neg h1, h2, h3, atoi_fourDigits n h]

theorem parseStd_zeroMonth (p : Parsed) (n : Nat) (h : 1 ≤ n ∧ n ≤ 12) (rest : Bytes) :
    parseStd .stdZeroMonth p (twoDigits n ++ rest) =
      { p := { p with month := n }, value := rest } := by
  have h1 : ¬ ((!false) = true ∧ ((n : Int) ≤ 0 ∨ 12 < (n : Int))) := by omega
  simp only [parseStd, getnum_twoDigits n (by omega), if_neg h1]

theorem parseStd_zeroDay (p : Parsed) (n : Nat) (h : n < 100) (rest : Bytes) :
    parseStd .stdZeroDay p (twoDigits n ++ rest) =
      { p := { p with day := n }, value := rest } := by
  simp only [parseStd, getnum_twoDigits n h]

theorem parseStd_hour (p : Parsed) (n : Nat) (h : n < 24) (rest : Bytes) :
    parseStd .stdHour p (twoDigits n ++ rest) =
      { p := { p with hour := n }, value := rest } := by
  have h1 : ¬ ((n : Int) < 0 ∨ 24 ≤ (n : Int)) := by omega
  simp only [parseStd, getnum_twoDigits n (by omega), if_neg h1]

theorem parseStd_zeroMinute (p : Parsed) (n : Nat) (h : n < 60) (rest : Bytes) :
    parseStd .stdZeroMinute p (twoDigits n ++ rest) =
      { p := { p with min := n }, value := rest } := by
  have h1 : ¬ ((n : Int) < 0 ∨ 60 ≤ (n : Int)) := by omega
  simp only [parseStd, getnum_twoDigits n (by omega), if_neg h1]

/-- The seconds field, followed by the sign of the offset: no fraction. -/
theorem parseStd_zeroSecond (p : Parsed) (n : Nat) (h : n < 60) (neg : Bool) (rest : Bytes) :
    parseStd .stdZeroSecond p (twoDigits n ++ (if neg = true then 45 else 43) :: rest) =
      { p := { p with sec := n }, value := (if neg = true then 45 else 43) :: rest } := by
  have h1 : ¬ ((n : Int) < 0 ∨ 60 ≤ (n : Int)) := by omega
  have h2 : ¬ (((if neg = true then 45 else 43) :: rest).length ≥ 2 ∧
      commaOrPeriod (((if neg = true then 45 else 43) :: rest).getD 0 0) = true ∧
      isDigit ((if neg = true then 45 else 43) :: rest) 1 = true) := by
    cases neg <;> simp [commaOrPeriod]
  simp only [parseStd, getnum_twoDigits n (by omega), if_neg h1, if_neg h2]
  simp

theorem parseStd_numTZ (p : Parsed) (neg : Bool) (zh zm : Nat) (hh : zh ≤ 24) (hm : zm ≤ 60) :
    parseStd .stdNumTZ p ((if neg = true then 45 else 43) :: (twoDigits zh ++ twoDigits zm)) =
      { p := { p with zoneOffset :=
                if neg = true then -((((zh * 60 + zm) * 60 : Nat)) : Int)
                else (((zh * 60 + zm) * 60 : Nat) : Int) },
        value := [] } := by
  have e1 := getnum_twoDigits zh (by omega) [] true
  have e2 := getnum_twoDigits zm (by omega) [] true
  have e3 : getnum [48, 48] true = (0, [], false) := by decide
  simp only [List.append_nil] at e1 e2
  have a1 : List.take 2 (List.drop 1 ((if neg = true then 45 else 43) :: (twoDigits zh ++ twoDigits zm)))
      = twoDigits zh := by simp [twoDigits]
  have a2 : List.take 2 (List.drop 3 ((if neg = true then 45 else 43) :: (twoDigits zh ++ twoDigits zm)))
      = twoDigits zm := by simp [twoDigits]
  have a3 : List.drop 5 ((if neg = true then 45 else 43) :: (twoDigits zh ++ twoDigits zm))
      = [] := by simp [twoDigits]
  have a4 : ¬ ((if neg = true then 45 else 43) :: (twoDigits zh ++ twoDigits zm)).length < 5 := by
    simp [twoDigits]
  have a5 : (List.take 1 ((if neg = true then 45 else 43) :: (twoDigits zh ++ twoDigits zm))).getD 0 0
      = (if neg = true then 45 else 43) := by simp
  simp only [parseStd, if_neg a4, a1, a2, a3, a5, e1, e2, e3]
  clear a1 a2 a3 a4 a5 e1 e2 e3
  cases neg <;> simp <;> rw [if_neg (not_lt.mpr hm), if_neg (not_lt.mpr hh)]

theorem skip_nil (value : Bytes) : skip value [] = some value := by
  cases value <;> rfl

theorem skip_one (c : Nat) (value : Bytes) : skip (c :: value) [c] = some value := by
  simp [skip]

/-- One iteration of the loop of `Parse` that goes through. -/
theorem parseChunks_step (lit : Bytes) (std : Std) (layout : List (Bytes × Std))
    (p p' : Parsed) (value rest rest' : Bytes) (hskip : skip value lit = some rest)
    (hstd : parseStd std p rest = { p := p', value := rest' }) :
    parseChunks ((lit, std) :: layout) p value = parseChunks layout p' rest' := by
  simp only [parseChunks, hskip, hstd]
  simp

/-- The loop of `Parse` walks through a rendered text without a failure and reads back the
field values that were rendered. -/
theorem parseChunks_render (year month day hour min sec : Nat) (neg : Bool) (zh zm : Nat)
    (hy : year < 10000) (hmo : 1 ≤ month ∧ month ≤ 12) (hd : day < 100) (hh : hour < 24)
    (hmi : min < 60) (hs : sec < 60) (hzh : zh ≤ 24) (hzm : zm ≤ 60) :
    parseChunks timeFormat {} (render year month day hour min sec neg zh zm) =
      .ok ({ year := year, month := month, day := day, hour := hour, min := min, sec := sec,
             nsec := 0,
             zoneOffset := if neg = true then -((((zh * 60 + zm) * 60 : Nat)) : Int)
                           else (((zh * 60 + zm) * 60 : Nat) : Int) }, []) := by
  simp only [render, timeFormat, List.append_assoc, List.singleton_append, List.cons_append,
    List.nil_append]
  rw [parseChunks_step _ _ _ _ _ _ _ _ (skip_nil _) (parseStd_longYear _ _ hy _),
    parseChunks_step _ _ _ _ _ _ _ _ (skip_one _ _) (parseStd_zeroMonth _ _ hmo _),
    parseChunks_step _ _ _ _ _ _ _ _ (skip_one _ _) (parseStd_zeroDay _ _ hd _),
    parseChunks_step _ _ _ _ _ _ _ _ (skip_one _ _) (parseStd_hour _ _ hh _),
    parseChunks_step _ _ _ _ _ _ _ _ (skip_one _ _) (parseStd_zeroMinute _ _ hmi _),
    parseChunks_step _ _ _ _ _ _ _ _ (skip_one _ _) (parseStd_zeroSecond _ _ hs _ _),
    parseChunks_step _ _ _ _ _ _ _ _ (skip_nil _) (parseStd_numTZ _ _ _ _ hzh hzm)]
  rfl

/-- Parsing what `Format` printed gives the time back, to the second: for a
year of four digits and an offset of whole minutes, less than 25 hours. -/
theorem Parse_Format (t : Time) (hy : 0 ≤ t.Year ∧ t.Year ≤ 9999)
    (hm : t.offset % 60 = 0) (hr : -90000 < t.offset ∧ t.offset < 90000) :
    Parse timeFormat (t.Format timeFormat) = .ok { t with nsec := 0 } := by
  obtain ⟨c1, c2, c3, c4, c5, c6, -⟩ := absClock_spec t.abs
  obtain ⟨⟨y1, y2⟩, ⟨m1, m2⟩, ⟨d1, d2⟩⟩ := absDate_range t hy
  obtain ⟨-, -, -, -, d3, -⟩ := absDate_spec t.abs
  have key := DateUTC_absDate t.abs 0 (by omega)
  rw [Format_eq t hy (by omega)]
  unfold Parse
  rw [parseChunks_render _ _ _ _ _ _ _ _ _ (by omega) (by omega) (by omega) (by omega)
    (by omega) (by omega) (by omega) (by omega)]
  simp only [Int.toNat_of_nonneg y1, Int.toNat_of_nonneg (le_trans zero_le_one m1),
    Int.toNat_of_nonneg (le_trans zero_le_one d1), Int.toNat_of_nonneg c1,
    Int.toNat_of_nonneg c3, Int.toNat_of_nonneg c5]
  have z : (if decide (t.offset ≤ -60) = true then
        -(((t.offset.natAbs / 60 / 60 * 60 + t.offset.natAbs / 60 % 60) * 60 : Nat) : Int)
      else (((t.offset.natAbs / 60 / 60 * 60 + t.offset.natAbs / 60 % 60) * 60 : Nat) : Int))
      = t.offset := by
    simp only [decide_eq_true_eq]
    split_ifs <;> omega
  have hA : ¬ (absDate t.abs).2.1 < 0 := by omega
  have hB : ¬ (absDate t.abs).2.2 < 0 := by omega
  have hC : ¬ ((absDate t.abs).2.2 < 1 ∨
      (absDate t.abs).2.2 > daysIn (absDate t.abs).2.1 (absDate t.abs).1) := by omega
  have hD : t.offset ≠ -1 := by omega
  simp only [z, if_neg hA, if_neg hB, if_neg hC, if_pos hD, Nat.cast_zero, key]
  unfold Time.abs
  congr 2
  omega

/-! ## Lengths -/

theorem length_le_appendInt (b : Bytes) (x : Int) (width : Nat) :
    b.length ≤ (appendInt b x width).length := by
  unfold appendInt
  have h : b.length ≤ (if x < 0 then b ++ [45] else b).length := by
    split_ifs <;> simp
  generalize (if x < 0 then b ++ [45] else b) = b' at *
  simp only []
  split_ifs <;> simp <;> omega

theorem length_le_appendStd (t : Time) (b : Bytes) (std : Std) :
    b.length ≤ (appendStd t b std).length := by
  cases std
  · exact length_le_appendInt b (absDate t.abs).1 4
  · exact length_le_appendInt b (absDate t.abs).2.1 2
  · exact length_le_appendInt b (absDate t.abs).2.2 2
  · exact length_le_appendInt b (absClock t.abs).1 2
  · exact length_le_appendInt b (absClock t.abs).2.1 2
  · exact length_le_appendInt b (absClock t.abs).2.2 2
  · simp only [appendStd]
    split_ifs
    · exact le_trans (le_trans (by simp) (length_le_appendInt _ _ _)) (length_le_appendInt _ _ _)
    · exact le_trans (le_trans (by simp) (length_le_appendInt _ _ _)) (length_le_appendInt _ _ _)

/-- Under `timeFormat`, `Format` never prints the empty text. -/
theorem Format_ne_nil (t : Time) : t.Format timeFormat ≠ [] := by
  intro h
  have h1 : 1 ≤ (t.Format timeFormat).length := by
    simp only [Time.Format, timeFormat, Time.appendFormat]
    refine le_trans ?_ (length_le_appendStd t _ _)
    rw [List.length_append]
    refine le_trans ?_ (Nat.le_add_right _ _)
    refine le_trans ?_ (length_le_appendStd t _ _)
    simp
  rw [h] at h1
  simp at h1

/-! ## The layout of what `Format` prints -/

theorem render_eq (year month day hour min sec : Nat) (neg : Bool) (zh zm : Nat) :
    render year month day hour min sec neg zh zm =
      [48 + year / 100 / 10, 48 + year / 100 % 10, 48 + year % 100 / 10, 48 + year % 100 % 10,
        45, 48 + month / 10, 48 + month % 10, 45, 48 + day / 10, 48 + day % 10,
        84, 48 + hour / 10, 48 + hour % 10, 58, 48 + min / 10, 48 + min % 10,
        58, 48 + sec / 10, 48 + sec % 10, if neg = true then 45 else 43,
        48 + zh / 10, 48 + zh % 10, 48 + zm / 10, 48 + zm % 10] := by
  simp [render, twoDigits, fourDigits]

theorem render_matchesLayout (year month day hour min sec : Nat) (neg : Bool) (zh zm : Nat)
    (hy : year < 10000) (hmo : month < 100) (hd : day < 100) (hh : hour < 100)
    (hmi : min < 100) (hs : sec < 100) (hzh : zh < 100) (hzm : zm < 100) :
    MatchesLayout (render year month day hour min sec neg zh zm) := by
  rw [render_eq]
  refine ⟨rfl, rfl, rfl, rfl, rfl, rfl, by cases neg <;> simp, ?_⟩
  intro i hi hn
  simp only [List.mem_cons, List.mem_singleton, List.not_mem_nil, or_false, not_or] at hn
  have hc : i = 0 ∨ i = 1 ∨ i = 2 ∨ i = 3 ∨ i = 5 ∨ i = 6 ∨ i = 8 ∨ i = 9 ∨ i = 11 ∨ i = 12 ∨ i = 14 ∨ i = 15 ∨ i = 17 ∨ i = 18 ∨ i = 20 ∨ i = 21 ∨ i = 22 ∨ i = 23 := by omega
  rcases hc with rfl | rfl | rfl | rfl | rfl | rfl | rfl | rfl | rfl | rfl | rfl | rfl | rfl | rfl | rfl | rfl | rfl | rfl <;>
    simp [isDigit] <;> omega

/-! ## What `Parse` accepts -/

theorem isDigit_zero_iff (s : Bytes) :
    isDigit s 0 = true ↔ ∃ a rest, s = a :: rest ∧ IsDigitByte a := by
  cases s with
  | nil => simp [isDigit]
  | cons a rest => simp [isDigit, IsDigitByte]

theorem isDigit_one_iff (a : Nat) (s : Bytes) :
    isDigit (a :: s) 1 = true ↔ ∃ b rest, s = b :: rest ∧ IsDigitByte b := by
  cases s with
  | nil => simp [isDigit]
  | cons b rest => simp [isDigit, IsDigitByte]

/-- A `getnum` that goes through has read one or two digits. -/
theorem getnum_ok (s : Bytes) (fixed : Bool) (h : (getnum s fixed).2.2 = false) :
    (∃ a b, IsDigitByte a ∧ IsDigitByte b ∧ s = a :: b :: (getnum s fixed).2.1) ∨
      (fixed = false ∧ ∃ a, IsDigitByte a ∧ s = [a] ++ (getnum s fixed).2.1) := by
  unfold getnum at h ⊢
  by_cases h0 : isDigit s 0 = true
  · obtain ⟨a, rest, rfl, ha⟩ := (isDigit_zero_iff s).mp h0
    by_cases h1 : isDigit (a :: rest) 1 = true
    · obtain ⟨b, rest', rfl, hb⟩ := (isDigit_one_iff a rest).mp h1
      left
      refine ⟨a, b, ha, hb, ?_⟩
      simp [h0, h1]
    · right
      cases fixed
      · refine ⟨rfl, a, ha, ?_⟩
        simp [h0, h1]
      · simp [h0, h1] at h
  · simp [h0] at h

/-- A `leadingInt` that leaves nothing over has read digits only. -/
theorem leadingInt_all (s : Bytes) (x q : Nat) (h : leadingInt s x = some (q, [])) :
    ∀ c ∈ s, IsDigitByte c := by
  induction s generalizing x with
  | nil => simp
  | cons c s ih =>
    unfold leadingInt at h
    by_cases hc : c < 48 ∨ c > 57
    · rw [if_pos hc] at h
      simp at h
    · rw [if_neg hc] at h
      by_cases hx : x > 2 ^ 63 / 10
      · rw [if_pos hx] at h
        cases h
      · rw [if_neg hx] at h
        simp only [] at h
        by_cases hx' : x * 10 + c - 48 > 2 ^ 63
        · rw [if_pos hx'] at h
          cases h
        · rw [if_neg hx'] at h
          intro c' hc'
          rcases List.mem_cons.mp hc' with rfl | hm
          · unfold IsDigitByte; omega
          · exact ih _ h c' hm

/-- An `atoi` that goes through on a text that starts with a digit has read
digits only. -/
theorem atoi_all (a : Nat) (s : Bytes) (ha : IsDigitByte a) (h : (atoi (a :: s)).2 = false) :
    ∀ c ∈ s, IsDigitByte c := by
  unfold IsDigitByte at ha
  have hs : ¬ (a = 45 ∨ a = 43) := by omega
  simp only [atoi, if_neg hs] at h
  cases e : leadingInt (a :: s) 0 with
  | none => simp [e] at h
  | some r =>
    obtain ⟨q, rem⟩ := r
    cases rem with
    | nil =>
      intro c hc
      exact leadingInt_all _ _ _ e c (List.mem_cons_of_mem _ hc)
    | cons r rs => simp [e] at h

theorem parseStd_longYear_ok (p : Parsed) (value : Bytes)
    (h : (parseStd .stdLongYear p value).err = false) :
    ∃ a b c d, (∀ x ∈ [a, b, c, d], IsDigitByte x) ∧
      value = [a, b, c, d] ++ (parseStd .stdLongYear p value).value := by
  simp only [parseStd] at h ⊢
  by_cases hc : value.length < 4 ∨ (!isDigit value 0) = true
  · rw [if_pos hc] at h
    cases h
  · rw [if_neg hc] at h ⊢
    simp only [not_or, not_lt, Bool.not_eq_true, Bool.not_eq_false'] at hc
    obtain ⟨hl, hd⟩ := hc
    match value, hl, hd, h with
    | a :: b :: c :: d :: rest, _, hd, h =>
      have ha : IsDigitByte a := by
        obtain ⟨a', r', e, h'⟩ := (isDigit_zero_iff _).mp hd
        cases e
        exact h'
      have hall := atoi_all a [b, c, d] ha (by simpa using h)
      refine ⟨a, b, c, d, ?_, by simp⟩
      intro x hx
      rcases List.mem_cons.mp hx with rfl | hx
      · exact ha
      · exact hall x hx

theorem parseStd_zeroMonth_ok (p : Parsed) (value : Bytes)
    (h : (parseStd .stdZeroMonth p value).err = false) :
    ∃ a b, IsDigitByte a ∧ IsDigitByte b ∧
      value = [a, b] ++ (parseStd .stdZeroMonth p value).value := by
  have h' : (getnum value true).2.2 = false := h
  rcases getnum_ok value true h' with ⟨a, b, ha, hb, e⟩ | ⟨hf, -⟩
  · exact ⟨a, b, ha, hb, e⟩
  · cases hf

theorem parseStd_zeroDay_ok (p : Parsed) (value : Bytes)
    (h : (parseStd .stdZeroDay p value).err = false) :
    ∃ a b, IsDigitByte a ∧ IsDigitByte b ∧
      value = [a, b] ++ (parseStd .stdZeroDay p value).value := by
  have h' : (getnum value true).2.2 = false := h
  rcases getnum_ok value true h' with ⟨a, b, ha, hb, e⟩ | ⟨hf, -⟩
  · exact ⟨a, b, ha, hb, e⟩
  · cases hf

theorem parseStd_zeroMinute_ok (p : Parsed) (value : Bytes)
    (h : (parseStd .stdZeroMinute p value).err = false) :
    ∃ a b, IsDigitByte a ∧ IsDigitByte b ∧
      value = [a, b] ++ (parseStd .stdZeroMinute p value).value := by
  have h' : (getnum value true).2.2 = false := h
  rcases getnum_ok value true h' with ⟨a, b, ha, hb, e⟩ | ⟨hf, -⟩
  · exact ⟨a, b, ha, hb, e⟩
  · cases hf

theorem parseStd_hour_ok (p : Parsed) (value : Bytes)
    (h : (parseStd .stdHour p value).err = false) :
    ∃ hh : Bytes, (hh.length = 1 ∨ hh.length = 2) ∧ (∀ c ∈ hh, IsDigitByte c) ∧
      value = hh ++ (parseStd .stdHour p value).value := by
  have h' : (getnum value false).2.2 = false := h
  rcases getnum_ok value false h' with ⟨a, b, ha, hb, e⟩ | ⟨-, a, ha, e⟩
  · refine ⟨[a, b], Or.inr rfl, ?_, e⟩
    intro c hc
    simp only [List.mem_cons, List.mem_singleton, List.not_mem_nil, or_false] at hc
    rcases hc with rfl | rfl
    · exact ha
    · exact hb
  · refine ⟨[a], Or.inl rfl, ?_, e⟩
    intro c hc
    simp only [List.mem_singleton] at hc
    subst hc
    exact ha

theorem digitRun_take (s : Bytes) : ∀ c ∈ s.take (digitRun s), IsDigitByte c := by
  induction s with
  | nil => simp [digitRun]
  | cons a s ih =>
    unfold digitRun
    by_cases ha : 48 ≤ a ∧ a ≤ 57
    · rw [if_pos ha]
      intro c hc
      simp only [List.take_succ_cons, List.mem_cons] at hc
      rcases hc with rfl | hc
      · exact ha
      · exact ih c hc
    · rw [if_neg ha]
      simp

/-- The seconds element: two digits, and then either nothing more, or a
fraction of a second. -/
theorem parseStd_zeroSecond_ok (p : Parsed) (value : Bytes)
    (h : (parseStd .stdZeroSecond p value).err = false) :
    ∃ a b frac, IsDigitByte a ∧ IsDigitByte b ∧
      value = [a, b] ++ frac ++ (parseStd .stdZeroSecond p value).value ∧
      (frac = [] ∨ ∃ sep ds, frac = sep :: ds ∧ (sep = 46 ∨ sep = 44) ∧ ds ≠ [] ∧
        ∀ c ∈ ds, IsDigitByte c) := by
  simp only [parseStd] at h ⊢
  by_cases he : (getnum value true).2.2 = true
  · rw [if_pos he] at h
    cases h
  · rw [if_neg he] at h ⊢
    have he' : (getnum value true).2.2 = false := by simpa using he
    rcases getnum_ok value true he' with ⟨a, b, ha, hb, e⟩ | ⟨hf, -⟩
    swap
    · cases hf
    generalize (getnum value true).2.1 = rest at *
    generalize (getnum value true).1 = sec at *
    subst e
    by_cases hr : sec < 0 ∨ 60 ≤ sec
    · rw [if_pos hr]
      exact ⟨a, b, [], ha, hb, by simp, Or.inl rfl⟩
    · rw [if_neg hr]
      by_cases hfrac : rest.length ≥ 2 ∧ commaOrPeriod (rest.getD 0 0) = true ∧
          isDigit rest 1 = true
      · rw [if_pos hfrac]
        obtain ⟨hl, hsep, hdig⟩ := hfrac
        match rest, hl, hsep, hdig with
        | sep :: d :: more, _, hsep, hdig =>
          have hdrop : List.drop (2 + digitRun (List.drop 2 (sep :: d :: more))) (sep :: d :: more)
              = List.drop (digitRun more) more := by
            rw [Nat.add_comm]
            rfl
          rw [hdrop]
          refine ⟨a, b, sep :: d :: more.take (digitRun more), ha, hb, ?_, Or.inr ?_⟩
          · simp
          · refine ⟨sep, d :: more.take (digitRun more), rfl, ?_, by simp, ?_⟩
            · simpa [commaOrPeriod] using hsep
            · intro c hc
              rcases List.mem_cons.mp hc with rfl | hc
              · obtain ⟨b', r', e', h'⟩ := (isDigit_one_iff sep _).mp hdig
                cases e'
                exact h'
              · exact digitRun_take more c hc
      · rw [if_neg hfrac]
        exact ⟨a, b, [], ha, hb, by simp, Or.inl rfl⟩

/-- The offset element: a sign and four digits. -/
theorem parseStd_numTZ_ok (p : Parsed) (value : Bytes)
    (h : (parseStd .stdNumTZ p value).err = false) :
    ∃ sg o1 o2 o3 o4, (sg = 43 ∨ sg = 45) ∧ (∀ c ∈ [o1, o2, o3, o4], IsDigitByte c) ∧
      value = [sg, o1, o2, o3, o4] ++ (parseStd .stdNumTZ p value).value := by
  simp only [parseStd] at h ⊢
  by_cases hl : value.length < 5
  · rw [if_pos hl] at h
    cases h
  · rw [if_neg hl] at h ⊢
    have hl' : value.length ≥ 5 := by omega
    match value, hl', h with
    | sg :: o1 :: o2 :: o3 :: o4 :: rest, _, h =>
      simp only [List.take, List.drop, List.getD_cons_zero] at h ⊢
      by_cases e1 : (getnum [o1, o2] true).2.2 = true
      · simp [e1] at h
        split_ifs at h
      · have e1' : (getnum [o1, o2] true).2.2 = false := by simpa using e1
        by_cases e2 : (getnum [o3, o4] true).2.2 = true
        · simp [e1', e2] at h
          split_ifs at h
        · have e2' : (getnum [o3, o4] true).2.2 = false := by simpa using e2
          have hs : sg = 43 ∨ sg = 45 := by
            by_contra hs
            simp only [not_or] at hs
            rw [if_neg hs.1, if_neg hs.2] at h
            cases h
          rcases getnum_ok _ true e1' with ⟨a, b, ha, hb, e⟩ | ⟨hf, -⟩
          swap
          · cases hf
          rcases getnum_ok _ true e2' with ⟨a', b', ha', hb', e'⟩ | ⟨hf, -⟩
          swap
          · cases hf
          simp only [List.cons.injEq] at e e'
          obtain ⟨h1, h2, -⟩ := e
          obtain ⟨h3, h4, -⟩ := e'
          refine ⟨sg, o1, o2, o3, o4, hs, ?_, ?_⟩
          · intro c hc
            simp only [List.mem_cons, List.mem_singleton, List.not_mem_nil, or_false] at hc
            rcases hc with rfl | rfl | rfl | rfl
            · exact h1 ▸ ha
            · exact h2 ▸ hb
            · exact h3 ▸ ha'
            · exact h4 ▸ hb'
          · rcases hs with rfl | rfl <;> simp

theorem skip_one_ok (c : Nat) (value rest : Bytes) (h : skip value [c] = some rest) :
    value = c :: rest := by
  cases value with
  | nil => simp [skip] at h
  | cons v value =>
    simp only [skip] at h
    by_cases hv : v ≠ c
    · rw [if_pos hv] at h
      cases h
    · rw [if_neg hv] at h
      have e : v = c := by simpa using hv
      cases h
      rw [e]

/-- One iteration of the loop of `Parse` that does not fail. -/
theorem parseChunks_cons_ok (lit : Bytes) (std : Std) (layout : List (Bytes × Std))
    (p : Parsed) (value : Bytes) (r : Parsed × Bytes)
    (h : parseChunks ((lit, std) :: layout) p value = .ok r) :
    ∃ rest, skip value lit = some rest ∧ (parseStd std p rest).err = false ∧
      parseChunks layout (parseStd std p rest).p (parseStd std p rest).value = .ok r := by
  simp only [parseChunks] at h
  cases hs : skip value lit with
  | none =>
    rw [hs] at h
    cases h
  | some rest =>
    rw [hs] at h
    simp only [] at h
    refine ⟨rest, rfl, ?_, ?_⟩
    · by_contra he
      have he' : (parseStd std p rest).err = true := by simpa using he
      split_ifs at h
    · split_ifs at h
      exact h

/-- A text that `Parse` reads to the end under `timeFormat` has the accepted
shape. -/
theorem parseChunks_shape (text : Bytes) (r : Parsed × Bytes)
    (h : parseChunks timeFormat {} text = .ok r) : AcceptedShape text := by
  unfold timeFormat at h
  obtain ⟨v1, k1, e1, h⟩ := parseChunks_cons_ok _ _ _ _ _ _ h
  obtain ⟨y1, y2, y3, y4, hy, t1⟩ := parseStd_longYear_ok _ _ e1
  generalize (parseStd Std.stdLongYear _ v1).value = w1 at *
  generalize (parseStd Std.stdLongYear _ v1).p = p1 at *
  obtain ⟨v2, k2, e2, h⟩ := parseChunks_cons_ok _ _ _ _ _ _ h
  obtain ⟨m1, m2, hm1, hm2, t2⟩ := parseStd_zeroMonth_ok _ _ e2
  generalize (parseStd Std.stdZeroMonth _ v2).value = w2 at *
  generalize (parseStd Std.stdZeroMonth _ v2).p = p2 at *
  obtain ⟨v3, k3, e3, h⟩ := parseChunks_cons_ok _ _ _ _ _ _ h
  obtain ⟨d1, d2, hd1, hd2, t3⟩ := parseStd_zeroDay_ok _ _ e3
  generalize (parseStd Std.stdZeroDay _ v3).value = w3 at *
  generalize (parseStd Std.stdZeroDay _ v3).p = p3 at *
  obtain ⟨v4, k4, e4, h⟩ := parseChunks_cons_ok _ _ _ _ _ _ h
  obtain ⟨hh, hhl, hhd, t4⟩ := parseStd_hour_ok _ _ e4
  generalize (parseStd Std.stdHour _ v4).value = w4 at *
  generalize (parseStd Std.stdHour _ v4).p = p4 at *
  obtain ⟨v5, k5, e5, h⟩ := parseChunks_cons_ok _ _ _ _ _ _ h
  obtain ⟨i1, i2, hi1, hi2, t5⟩ := parseStd_zeroMinute_ok _ _ e5
  generalize (parseStd Std.stdZeroMinute _ v5).value = w5 at *
  generalize (parseStd Std.stdZeroMinute _ v5).p = p5 at *
  obtain ⟨v6, k6, e6, h⟩ := parseChunks_cons_ok _ _ _ _ _ _ h
  obtain ⟨s1, s2, frac, hs1, hs2, t6, hfrac⟩ := parseStd_zeroSecond_ok _ _ e6
  generalize (parseStd Std.stdZeroSecond _ v6).value = w6 at *
  generalize (parseStd Std.stdZeroSecond _ v6).p = p6 at *
  obtain ⟨v7, k7, e7, h⟩ := parseChunks_cons_ok _ _ _ _ _ _ h
  obtain ⟨sg, o1, o2, o3, o4, hsg, ho, t7⟩ := parseStd_numTZ_ok _ _ e7
  generalize (parseStd Std.stdNumTZ _ v7).value = w7 at *
  generalize (parseStd Std.stdNumTZ _ v7).p = p7 at *
  have hend : w7 = [] := by
    simp only [parseChunks] at h
    by_contra hne
    have : w7.length ≠ 0 := by simpa using hne
    rw [if_pos this] at h
    cases h
  rw [skip_nil] at k1 k7
  cases k1
  cases k7
  have a2 := skip_one_ok _ _ _ k2
  have a3 := skip_one_ok _ _ _ k3
  have a4 := skip_one_ok _ _ _ k4
  have a5 := skip_one_ok _ _ _ k5
  have a6 := skip_one_ok _ _ _ k6
  refine ⟨y1, y2, y3, y4, m1, m2, d1, d2, hh, i1, i2, s1, s2, frac, sg, o1, o2, o3, o4,
    ?_, ?_, hhl, hhd, hfrac, hsg⟩
  · rw [t1, a2, t2, a3, t3, a4, t4, a5, t5, a6, t6, t7, hend]
    simp
  · intro c hc
    simp only [List.mem_cons, List.mem_singleton, List.not_mem_nil, or_false] at hc
    have hy1 := hy y1 (by simp)
    have hy2 := hy y2 (by simp)
    have hy3 := hy y3 (by simp)
    have hy4 := hy y4 (by simp)
    have ho1 := ho o1 (by simp)
    have ho2 := ho o2 (by simp)
    have ho3 := ho o3 (by simp)
    have ho4 := ho o4 (by simp)
    rcases hc with rfl | rfl | rfl | rfl | rfl | rfl | rfl | rfl | rfl | rfl | rfl | rfl | rfl |
      rfl | rfl | rfl <;> assumption

/-- A text without the accepted shape is rejected by `Parse`. -/
theorem Parse_error_of_not_shape (text : Bytes) (h : ¬ AcceptedShape text) :
    ∃ e, Parse timeFormat text = .error e := by
  unfold Parse
  cases hp : parseChunks timeFormat {} text with
  | error e => exact ⟨e, rfl⟩
  | ok r => exact absurd (parseChunks_shape text r hp) h

/-! ## The claims -/

/-- C1 (counterexample): the JSON round trip does not give back every time
with a year in [0,9999].  (a) 2022-03-01T10:30:00.5 UTC is marshalled without
its half second, and comes back with a zero sub-second part.  (b) Midnight of
1900-01-01 at the offset +00:19:32 is marshalled with the offset `+0019`, and
comes back 32 seconds later.  (c) A time at the offset +25:00 is marshalled
with the offset `+2500`, which `UnmarshalJSON` rejects. -/
theorem C1_counterexample :
    (Time.Year ⟨1646130600, 500000000, 0⟩ = 2022 ∧
      (NewNullTime ⟨1646130600, 500000000, 0⟩).MarshalJSON
        = (some (bytes "2022-03-01T10:30:00+0000"), none) ∧
      NullTime.UnmarshalJSON ⟨zeroTime, false⟩ (bytes "2022-03-01T10:30:00+0000")
        = (⟨⟨1646130600, 0, 0⟩, true⟩, none)) ∧
    (Time.Year ⟨-2208989972, 0, 1172⟩ = 1900 ∧
      (NewNullTime ⟨-2208989972, 0, 1172⟩).MarshalJSON
        = (some (bytes "1900-01-01T00:00:00+0019"), none) ∧
      NullTime.UnmarshalJSON ⟨zeroTime, false⟩ (bytes "1900-01-01T00:00:00+0019")
        = (⟨⟨-2208989940, 0, 1140⟩, true⟩, none)) ∧
    (Time.Year ⟨1646130600, 0, 90000⟩ = 2022 ∧
      (NewNullTime ⟨1646130600, 0, 90000⟩).MarshalJSON
        = (some (bytes "2022-03-02T11:30:00+2500"), none) ∧
      NullTime.UnmarshalJSON ⟨zeroTime, false⟩ (bytes "2022-03-02T11:30:00+2500")
        = (⟨zeroTime, false⟩, some (.parse (.outOfRange "time zone offset hour")))) := by
  decide

/-- C1 (amended): for every time `t` whose year is in [0,9999] and whose UTC
offset is a whole number of minutes, less than 25 hours in magnitude,
`MarshalJSON` of `NewNullTime t` returns bytes and no error, and
`UnmarshalJSON` of these bytes, whatever the receiver held, returns no error
and leaves `Valid = true` and `Time` equal to `t` cut to whole seconds: the
same second, the same offset, and a zero sub-second part. -/
theorem C1_roundtrip_whole_seconds (t : Time) (prior : NullTime)
    (hy : 0 ≤ t.Year ∧ t.Year ≤ 9999) (hm : t.offset % 60 = 0)
    (hr : -90000 < t.offset ∧ t.offset < 90000) :
    ∃ b, (NewNullTime t).MarshalJSON = (some b, none) ∧
      prior.UnmarshalJSON b = (⟨{ t with nsec := 0 }, true⟩, none) := by
  refine ⟨t.Format timeFormat, ?_, ?_⟩
  · have h : ¬ (t.Year < 0 ∨ t.Year ≥ 10000) := by omega
    simp only [NullTime.MarshalJSON, NewNullTime, if_true, if_neg h]
  · have h : ¬ (t.Format timeFormat = [110, 117, 108, 108] ∨ t.Format timeFormat = []) := by
      rw [Format_eq t hy (by omega), render_eq]
      simp
    simp only [NullTime.UnmarshalJSON, if_neg h, Parse_Format t hy hm hr]

/-- C1 (witness): 2022-03-01T10:30:00.5 at the offset +01:00. -/
theorem C1_roundtrip_whole_seconds_witness :
    ∃ b, (NewNullTime ⟨1646130600, 500000000, 3600⟩).MarshalJSON = (some b, none) ∧
      NullTime.UnmarshalJSON ⟨zeroTime, false⟩ b
        = (⟨{ (⟨1646130600, 500000000, 3600⟩ : Time) with nsec := 0 }, true⟩, none) :=
  C1_roundtrip_whole_seconds ⟨1646130600, 500000000, 3600⟩ ⟨zeroTime, false⟩
    (by decide) (by decide) (by decide)

/-- C2: `MarshalJSON` returns an error exactly when `Valid` is true and the
year of `Time` is below 0 or at least 10000; with an error the byte slice is
nil, and without an error it holds at least one byte. -/
theorem C2_MarshalJSON_error_iff (ns : NullTime) :
    (ns.MarshalJSON.2 ≠ none ↔
        (ns.Valid = true ∧ (ns.Time.Year < 0 ∨ ns.Time.Year ≥ 10000))) ∧
      (ns.MarshalJSON.2 ≠ none → ns.MarshalJSON.1 = none) ∧
      (ns.MarshalJSON.2 = none → ∃ b, ns.MarshalJSON.1 = some b ∧ b ≠ []) := by
  unfold NullTime.MarshalJSON jsonMarshalNil
  by_cases hv : ns.Valid = true
  · by_cases hyr : ns.Time.Year < 0 ∨ ns.Time.Year ≥ 10000
    · simp [hv, hyr]
    · simp only [hv, if_true, if_neg hyr]
      simp [hyr, Format_ne_nil]
  · simp [hv]

/-- C4: with `Valid = false`, whatever `Time` holds, `MarshalJSON` returns the
four bytes `null` and no error. -/
theorem C4_MarshalJSON_null (t : Time) :
    NullTime.MarshalJSON ⟨t, false⟩ = (some (bytes "null"), none) ∧
      (bytes "null").length = 4 := by
  constructor
  · simp only [NullTime.MarshalJSON, Bool.false_eq_true, if_false, jsonMarshalNil]
    decide
  · decide

/-- C5: on the text `null` and on the empty text, whatever the receiver held,
`UnmarshalJSON` returns no error and leaves `Valid = false`. -/
theorem C5_UnmarshalJSON_null (prior : NullTime) :
    ((prior.UnmarshalJSON (bytes "null")).2 = none ∧
        (prior.UnmarshalJSON (bytes "null")).1.Valid = false) ∧
      ((prior.UnmarshalJSON []).2 = none ∧ (prior.UnmarshalJSON []).1.Valid = false) := by
  have e : bytes "null" = [110, 117, 108, 108] := by decide
  rw [e]
  simp [NullTime.UnmarshalJSON]

/-- C6: `Scan` returns no error for every driver value and every receiver; a
timestamp leaves `Valid = true` and `Time` equal to it; any other value leaves
`Valid = false` and `Time` the zero timestamp. -/
theorem C6_Scan (prior : NullTime) (v : Value) :
    (prior.Scan v).2 = none ∧
      (∀ t, v = .time t → (prior.Scan v).1 = ⟨t, true⟩) ∧
      ((∀ t, v ≠ .time t) → (prior.Scan v).1 = ⟨zeroTime, false⟩) := by
  cases v <;> simp [NullTime.Scan, assertTime]

/-- C7: `Value` returns no error; with `Valid = false` it returns the null
marker whatever `Time` holds, and on `NewNullTime t` it returns `t` itself. -/
theorem C7_Value (t : Time) :
    NullTime.Value ⟨t, false⟩ = (.nil, none) ∧ (NewNullTime t).Value = (.time t, none) := by
  simp [NullTime.Value, NewNullTime]

/-- C8: `UnmarshalJSON` of `2022-03-01T10:30:00+0000`, whatever the receiver
held, returns no error and leaves `Valid = true` and `Time` the instant
2022-03-01 10:30:00 at offset zero; `MarshalJSON` of that value returns no
error and the same 24 bytes. -/
theorem C8_scenario (prior : NullTime) :
    prior.UnmarshalJSON (bytes "2022-03-01T10:30:00+0000")
        = (⟨DateUTC 2022 3 1 10 30 0 0, true⟩, none) ∧
      absDate (DateUTC 2022 3 1 10 30 0 0).abs = (2022, 3, 1) ∧
      absClock (DateUTC 2022 3 1 10 30 0 0).abs = (10, 30, 0) ∧
      (DateUTC 2022 3 1 10 30 0 0).nsec = 0 ∧ (DateUTC 2022 3 1 10 30 0 0).offset = 0 ∧
      NullTime.MarshalJSON ⟨DateUTC 2022 3 1 10 30 0 0, true⟩
        = (some (bytes "2022-03-01T10:30:00+0000"), none) ∧
      (bytes "2022-03-01T10:30:00+0000").length = 24 := by
  have e : Parse timeFormat (bytes "2022-03-01T10:30:00+0000")
      = .ok (DateUTC 2022 3 1 10 30 0 0) := by rfl
  have n : ¬ (bytes "2022-03-01T10:30:00+0000" = [110, 117, 108, 108] ∨
      bytes "2022-03-01T10:30:00+0000" = []) := by decide
  refine ⟨?_, by decide, by decide, by decide, by decide, by decide, by decide⟩
  simp only [NullTime.UnmarshalJSON, if_neg n, e]

/-- C9 (counterexample): at the offset +100:00 the marshalled text has 25
bytes, five of them after the sign. -/
theorem C9_counterexample :
    Time.Year ⟨1646130600, 0, 360000⟩ = 2022 ∧
      NullTime.MarshalJSON ⟨⟨1646130600, 0, 360000⟩, true⟩
        = (some (bytes "2022-03-05T14:30:00+10000"), none) ∧
      (bytes "2022-03-05T14:30:00+10000").length = 25 := by
  decide

/-- C9 (amended): with `Valid = true`, a year in [0,9999], a zero sub-second
part and a UTC offset of less than 100 hours in magnitude, `MarshalJSON`
returns no error and a text in the layout `YYYY-MM-DDThh:mm:ss±hhmm`: 24
bytes, `-` at indices 4 and 7, `T` at 10, `:` at 13 and 16, a sign at 19, a
decimal digit everywhere else; neither its first nor its last byte is a
double quote. -/
theorem C9_MarshalJSON_layout (ns : NullTime) (hv : ns.Valid = true)
    (hy : 0 ≤ ns.Time.Year ∧ ns.Time.Year ≤ 9999) (_hn : ns.Time.nsec = 0)
    (hz : -360000 < ns.Time.offset ∧ ns.Time.offset < 360000) :
    ∃ b, ns.MarshalJSON = (some b, none) ∧ MatchesLayout b ∧
      b.head? ≠ some 34 ∧ b.getLast? ≠ some 34 := by
  have h : ¬ (ns.Time.Year < 0 ∨ ns.Time.Year ≥ 10000) := by omega
  obtain ⟨c1, c2, c3, c4, c5, c6, -⟩ := absClock_spec ns.Time.abs
  obtain ⟨⟨y1, y2⟩, ⟨m1, m2⟩, ⟨d1, d2⟩⟩ := absDate_range ns.Time hy
  refine ⟨ns.Time.Format timeFormat, ?_, ?_, ?_, ?_⟩
  · simp only [NullTime.MarshalJSON, hv, if_true, if_neg h]
  · rw [Format_eq ns.Time hy (by omega)]
    exact render_matchesLayout _ _ _ _ _ _ _ _ _ (by omega) (by omega) (by omega) (by omega)
      (by omega) (by omega) (by omega) (by omega)
  · rw [Format_eq ns.Time hy (by omega), render_eq]
    simp only [List.head?_cons, ne_eq, Option.some.injEq]
    omega
  · rw [Format_eq ns.Time hy (by omega), render_eq]
    simp only [List.getLast?_cons_cons, List.getLast?_singleton, ne_eq, Option.some.injEq]
    omega

/-- C9 (witness): 2022-03-01T10:30:00 UTC at the offset -01:30. -/
theorem C9_MarshalJSON_layout_witness :
    ∃ b, NullTime.MarshalJSON ⟨⟨1646130600, 0, -5400⟩, true⟩ = (some b, none) ∧
      MatchesLayout b ∧ b.head? ≠ some 34 ∧ b.getLast? ≠ some 34 :=
  C9_MarshalJSON_layout ⟨⟨1646130600, 0, -5400⟩, true⟩ rfl (by decide) rfl (by decide)

/-- A text of the accepted shape starts with a digit. -/
theorem not_acceptedShape_of_head (text : Bytes) (c : Nat) (hc : text.head? = some c)
    (h : ¬ IsDigitByte c) : ¬ AcceptedShape text := by
  rintro ⟨y1, y2, y3, y4, m1, m2, d1, d2, hh, i1, i2, s1, s2, frac, sg, o1, o2, o3, o4, e, hd, -⟩
  rw [e] at hc
  simp only [List.cons_append, List.head?_cons, Option.some.injEq] at hc
  exact h (hc ▸ hd y1 (by simp))

/-- C3 (counterexample): two texts that are neither `null` nor empty and do
not match the fixed layout, and that `UnmarshalJSON` accepts all the same,
without an error and with `Valid = true`: an hour of one digit, and a fraction
of a second. -/
theorem C3_counterexample :
    (NullTime.UnmarshalJSON ⟨zeroTime, false⟩ (bytes "2022-03-01T1:30:00+0000")
        = (⟨⟨1646098200, 0, 0⟩, true⟩, none) ∧
      ¬ MatchesLayout (bytes "2022-03-01T1:30:00+0000") ∧
      bytes "2022-03-01T1:30:00+0000" ≠ bytes "null" ∧ bytes "2022-03-01T1:30:00+0000" ≠ []) ∧
    (NullTime.UnmarshalJSON ⟨zeroTime, false⟩ (bytes "2022-03-01T10:30:00.5+0000")
        = (⟨⟨1646130600, 500000000, 0⟩, true⟩, none) ∧
      ¬ MatchesLayout (bytes "2022-03-01T10:30:00.5+0000") ∧
      bytes "2022-03-01T10:30:00.5+0000" ≠ bytes "null" ∧
      bytes "2022-03-01T10:30:00.5+0000" ≠ []) := by
  decide

/-- C3 (amended): for every text that is neither `null` nor empty and does not
have the shape `YYYY-MM-DDTh[h]:mm:ss[(.|,)d...]±hhmm` (the fixed layout, the
hour with one or two digits, optionally a fraction after the seconds), and for
every prior receiver state, `UnmarshalJSON` returns a parse error and leaves
`Valid = false`. -/
theorem C3_UnmarshalJSON_rejects (prior : NullTime) (text : Bytes)
    (h1 : text ≠ bytes "null") (h2 : text ≠ []) (h3 : ¬ AcceptedShape text) :
    ∃ e, (prior.UnmarshalJSON text).2 = some (.parse e) ∧
      (prior.UnmarshalJSON text).1.Valid = false := by
  obtain ⟨e, he⟩ := Parse_error_of_not_shape text h3
  have hn : ¬ (text = [110, 117, 108, 108] ∨ text = []) := by
    rintro (h | h)
    · exact h1 (h.trans (by decide))
    · exact h2 h
  refine ⟨e, ?_, ?_⟩ <;> simp only [NullTime.UnmarshalJSON, if_neg hn, he]

/-- C3 (witness): the text `not a time`, into a receiver that held a time. -/
theorem C3_UnmarshalJSON_rejects_witness :
    ∃ e, (NullTime.UnmarshalJSON ⟨DateUTC 2022 3 1 10 30 0 0, true⟩ (bytes "not a time")).2
        = some (.parse e) ∧
      (NullTime.UnmarshalJSON ⟨DateUTC 2022 3 1 10 30 0 0, true⟩ (bytes "not a time")).1.Valid
        = false :=
  C3_UnmarshalJSON_rejects ⟨DateUTC 2022 3 1 10 30 0 0, true⟩ (bytes "not a time")
    (by decide) (by decide)
    (not_acceptedShape_of_head _ 110 (by decide) (by unfold IsDigitByte; omega))

/-- C10 (counterexample): after `UnmarshalJSON` of `null`, and after
`UnmarshalJSON` of a text that does not parse, the `Time` of the receiver is
the one it held before: two receivers that held different times end
differently. -/
theorem C10_counterexample :
    ((NullTime.UnmarshalJSON ⟨zeroTime, true⟩ (bytes "null")).1 = ⟨zeroTime, false⟩ ∧
      (NullTime.UnmarshalJSON ⟨⟨1646130600, 0, 0⟩, true⟩ (bytes "null")).1
        = ⟨⟨1646130600, 0, 0⟩, false⟩) ∧
    ((NullTime.UnmarshalJSON ⟨zeroTime, true⟩ (bytes "tomorrow")).1 = ⟨zeroTime, false⟩ ∧
      (NullTime.UnmarshalJSON ⟨⟨1646130600, 0, 0⟩, true⟩ (bytes "tomorrow")).1
        = ⟨⟨1646130600, 0, 0⟩, false⟩) ∧
    (⟨zeroTime, false⟩ : NullTime) ≠ ⟨⟨1646130600, 0, 0⟩, false⟩ := by
  decide

/-- C10 (amended): `Scan` overwrites both fields for every input: its result
does not depend on what the receiver held.  `UnmarshalJSON` always overwrites
`Valid`: the flag it leaves and the error it returns do not depend on what the
receiver held; and whenever it leaves `Valid = true` it has overwritten `Time`
too, so that nothing of the prior state is left. -/
theorem C10_overwrite (p1 p2 : NullTime) (v : Value) (text : Bytes) :
    p1.Scan v = p2.Scan v ∧
      (p1.UnmarshalJSON text).2 = (p2.UnmarshalJSON text).2 ∧
      (p1.UnmarshalJSON text).1.Valid = (p2.UnmarshalJSON text).1.Valid ∧
      ((p1.UnmarshalJSON text).1.Valid = true →
        (p1.UnmarshalJSON text).1 = (p2.UnmarshalJSON text).1) := by
  refine ⟨rfl, ?_⟩
  unfold NullTime.UnmarshalJSON
  by_cases hn : text = [110, 117, 108, 108] ∨ text = []
  · simp [hn]
  · simp only [if_neg hn]
    cases Parse timeFormat text <;> simp

/-- Under `timeFormat`, `Format` prints the five literal bytes of the layout
at least. -/
theorem Format_length_ge (t : Time) : 5 ≤ (t.Format timeFormat).length := by
  simp only [Time.Format, timeFormat, Time.appendFormat]
  have step : ∀ (b : Bytes) (c : Nat) (std : Std) (n : Nat), n ≤ b.length →
      n + 1 ≤ (appendStd t (b ++ [c]) std).length := by
    intro b c std n h
    refine le_trans ?_ (length_le_appendStd t _ _)
    rw [List.length_append]
    simpa using h
  refine le_trans ?_ (length_le_appendStd t _ _)
  rw [List.length_append]
  refine le_trans ?_ (Nat.le_add_right _ _)
  exact step _ _ _ 4 (step _ _ _ 3 (step _ _ _ 2 (step _ _ _ 1 (step _ _ _ 0 (Nat.zero_le _)))))

/-- `Year` and `Format` do not read the sub-second part of a time. -/
theorem Format_nsec (t : Time) (n : Int) :
    Time.Year { t with nsec := n } = t.Year ∧
      Time.Format { t with nsec := n } timeFormat = t.Format timeFormat := by
  constructor
  · rfl
  · simp only [Time.Format, timeFormat, Time.appendFormat]
    rfl

/-- A text that starts with a double quote is rejected at the year. -/
theorem Parse_quote (rest : Bytes) : Parse timeFormat (34 :: rest) = .error .bad := by
  have h : parseChunks timeFormat {} (34 :: rest) = .error .bad := by
    simp [timeFormat, parseChunks, skip_nil, parseStd, isDigit]
  simp only [Parse, h]

/-- C11: for every prior receiver state and every text that is `null`, empty,
or rejected by `time.Parse` under the fixed layout, `UnmarshalJSON` leaves
`Time` as it was before the call and `Valid = false`. -/
theorem C11_UnmarshalJSON_keeps_Time (prior : NullTime) (text : Bytes)
    (h : text = bytes "null" ∨ text = [] ∨ ∃ e, Parse timeFormat text = .error e) :
    (prior.UnmarshalJSON text).1.Time = prior.Time ∧
      (prior.UnmarshalJSON text).1.Valid = false := by
  have e : bytes "null" = [110, 117, 108, 108] := by decide
  rw [e] at h
  unfold NullTime.UnmarshalJSON
  by_cases hn : text = [110, 117, 108, 108] ∨ text = []
  · simp [hn]
  · rcases h with h | h | ⟨err, h⟩
    · exact absurd (Or.inl h) hn
    · exact absurd (Or.inr h) hn
    · refine ⟨?_, ?_⟩ <;> simp only [if_neg hn, h]

/-- C11 (witness): the text `tomorrow`, into a receiver that held a time. -/
theorem C11_UnmarshalJSON_keeps_Time_witness :
    (NullTime.UnmarshalJSON ⟨DateUTC 2022 3 1 10 30 0 0, true⟩ (bytes "tomorrow")).1.Time
        = DateUTC 2022 3 1 10 30 0 0 ∧
      (NullTime.UnmarshalJSON ⟨DateUTC 2022 3 1 10 30 0 0, true⟩ (bytes "tomorrow")).1.Valid
        = false :=
  C11_UnmarshalJSON_keeps_Time ⟨DateUTC 2022 3 1 10 30 0 0, true⟩ (bytes "tomorrow")
    (Or.inr (Or.inr ⟨.bad, rfl⟩))

/-- C12: with `Valid = true`, whatever `Time` holds, `MarshalJSON` does not
return the bytes `null`: it returns an error and no bytes, or no error and the
text that `Format` prints; and `Value` returns the time, not the null
marker. -/
theorem C12_absence_by_Valid (ns : NullTime) (hv : ns.Valid = true) :
    ns.MarshalJSON.1 ≠ some (bytes "null") ∧
      ((ns.MarshalJSON.2 ≠ none ∧ ns.MarshalJSON.1 = none) ∨
        ns.MarshalJSON = (some (ns.Time.Format timeFormat), none)) ∧
      ns.Value.1 = .time ns.Time ∧ ns.Value.1 ≠ .nil := by
  have hl := Format_length_ge ns.Time
  have hne : ns.Time.Format timeFormat ≠ bytes "null" := by
    intro h
    rw [h] at hl
    exact absurd hl (by decide)
  unfold NullTime.MarshalJSON NullTime.Value
  by_cases hyr : ns.Time.Year < 0 ∨ ns.Time.Year ≥ 10000
  · simp [hv, hyr]
  · simp only [hv, if_true, if_neg hyr]
    simp [hne]

/-- C12 (witness): the zero timestamp with `Valid = true`. -/
theorem C12_absence_by_Valid_witness :
    (NullTime.MarshalJSON ⟨zeroTime, true⟩).1 ≠ some (bytes "null") ∧
      (((NullTime.MarshalJSON ⟨zeroTime, true⟩).2 ≠ none ∧
          (NullTime.MarshalJSON ⟨zeroTime, true⟩).1 = none) ∨
        NullTime.MarshalJSON ⟨zeroTime, true⟩ = (some (zeroTime.Format timeFormat), none)) ∧
      (NullTime.Value ⟨zeroTime, true⟩).1 = .time zeroTime ∧
      (NullTime.Value ⟨zeroTime, true⟩).1 ≠ .nil :=
  C12_absence_by_Valid ⟨zeroTime, true⟩ rfl

/-- C13 (counterexample): 2022-03-01T10:30:00.5 UTC is marshalled to the same
24 bytes as 2022-03-01T10:30:00 UTC: the half second is not in the text. -/
theorem C13_counterexample :
    Time.Year ⟨1646130600, 500000000, 0⟩ = 2022 ∧
      NullTime.MarshalJSON ⟨⟨1646130600, 500000000, 0⟩, true⟩
        = (some (bytes "2022-03-01T10:30:00+0000"), none) ∧
      NullTime.MarshalJSON ⟨⟨1646130600, 0, 0⟩, true⟩
        = (some (bytes "2022-03-01T10:30:00+0000"), none) := by
  decide

/-- C13 (amended): `MarshalJSON` drops the sub-second part: with
`Valid = true` and a year in [0,9999], whatever the sub-second part,
`MarshalJSON` returns no error and the same text as for the same timestamp
cut to whole seconds; and when the UTC offset is less than 100 hours in
magnitude that text is in the fixed layout `YYYY-MM-DDThh:mm:ss±hhmm`: 24
bytes, the sign right after the two digits of the seconds, no fraction. -/
theorem C13_MarshalJSON_drops_fraction (ns : NullTime) (hv : ns.Valid = true)
    (hy : 0 ≤ ns.Time.Year ∧ ns.Time.Year ≤ 9999) :
    ∃ b, ns.MarshalJSON = (some b, none) ∧
      NullTime.MarshalJSON ⟨{ ns.Time with nsec := 0 }, true⟩ = (some b, none) ∧
      (-360000 < ns.Time.offset ∧ ns.Time.offset < 360000 → MatchesLayout b) := by
  have h : ¬ (ns.Time.Year < 0 ∨ ns.Time.Year ≥ 10000) := by omega
  obtain ⟨e1, e2⟩ := Format_nsec ns.Time 0
  refine ⟨ns.Time.Format timeFormat, ?_, ?_, ?_⟩
  · simp only [NullTime.MarshalJSON, hv, if_true, if_neg h]
  · simp only [NullTime.MarshalJSON, if_true, e1, e2, if_neg h]
  · intro hz
    obtain ⟨c1, c2, c3, c4, c5, c6, -⟩ := absClock_spec ns.Time.abs
    obtain ⟨⟨y1, y2⟩, ⟨m1, m2⟩, ⟨d1, d2⟩⟩ := absDate_range ns.Time hy
    rw [Format_eq ns.Time hy (by omega)]
    exact render_matchesLayout _ _ _ _ _ _ _ _ _ (by omega) (by omega) (by omega) (by omega)
      (by omega) (by omega) (by omega) (by omega)

/-- C13 (witness): 2022-03-01T10:30:00.5 at the offset +01:00. -/
theorem C13_MarshalJSON_drops_fraction_witness :
    ∃ b, NullTime.MarshalJSON ⟨⟨1646130600, 500000000, 3600⟩, true⟩ = (some b, none) ∧
      NullTime.MarshalJSON ⟨{ (⟨1646130600, 500000000, 3600⟩ : Time) with nsec := 0 }, true⟩
        = (some b, none) ∧
      MatchesLayout b :=
  (C13_MarshalJSON_drops_fraction ⟨⟨1646130600, 500000000, 3600⟩, true⟩ rfl (by decide)).imp
    fun _ hb => ⟨hb.1, hb.2.1, hb.2.2 (by decide)⟩

/-- C15 (counterexample): two whole-second times with a year in [0,9999] and
an offset of whole minutes whose marshalled text `UnmarshalJSON` rejects: at
the offset +100:00 the text has five digits after the sign, one too many, and
at the offset +25:00 the offset hours are out of range. -/
theorem C15_counterexample :
    (Time.Year ⟨1646130600, 0, 360000⟩ = 2022 ∧ (360000 : Int) % 60 = 0 ∧
      (NewNullTime ⟨1646130600, 0, 360000⟩).MarshalJSON
        = (some (bytes "2022-03-05T14:30:00+10000"), none) ∧
      NullTime.UnmarshalJSON ⟨zeroTime, false⟩ (bytes "2022-03-05T14:30:00+10000")
        = (⟨zeroTime, false⟩, some (.parse .extraText))) ∧
    (Time.Year ⟨1646130600, 0, -90000⟩ = 2022 ∧ (-90000 : Int) % 60 = 0 ∧
      (NewNullTime ⟨1646130600, 0, -90000⟩).MarshalJSON
        = (some (bytes "2022-02-28T09:30:00-2500"), none) ∧
      NullTime.UnmarshalJSON ⟨zeroTime, false⟩ (bytes "2022-02-28T09:30:00-2500")
        = (⟨zeroTime, false⟩, some (.parse (.outOfRange "time zone offset hour")))) := by
  decide

/-- C15 (amended): for every time `t` with a year in [0,9999], a zero
sub-second part and a UTC offset of whole minutes, less than 25 hours in
magnitude, `UnmarshalJSON` of the bytes that `MarshalJSON` returns for
`NewNullTime t` returns no error and leaves `Valid = true` and `Time` the same
instant at the same offset, `t` itself; and `MarshalJSON` of that result
returns the same bytes again. -/
theorem C15_whole_second_roundtrip (t : Time) (prior : NullTime)
    (hy : 0 ≤ t.Year ∧ t.Year ≤ 9999) (hn : t.nsec = 0) (hm : t.offset % 60 = 0)
    (hr : -90000 < t.offset ∧ t.offset < 90000) :
    ∃ b, (NewNullTime t).MarshalJSON = (some b, none) ∧
      prior.UnmarshalJSON b = (⟨t, true⟩, none) ∧
      (prior.UnmarshalJSON b).1.MarshalJSON = (some b, none) := by
  have h : ¬ (t.Year < 0 ∨ t.Year ≥ 10000) := by omega
  have hb : ¬ (t.Format timeFormat = [110, 117, 108, 108] ∨ t.Format timeFormat = []) := by
    have hl := Format_length_ge t
    rintro (e | e) <;> rw [e] at hl <;> exact absurd hl (by decide)
  have ht : ({ t with nsec := 0 } : Time) = t := by
    cases t
    simp only [Time.mk.injEq, true_and, and_true] at hn ⊢
    exact hn.symm
  have hm1 : (NewNullTime t).MarshalJSON = (some (t.Format timeFormat), none) := by
    simp only [NullTime.MarshalJSON, NewNullTime, if_true, if_neg h]
  have hu : prior.UnmarshalJSON (t.Format timeFormat) = (⟨t, true⟩, none) := by
    simp only [NullTime.UnmarshalJSON, if_neg hb, Parse_Format t hy hm hr, ht]
  refine ⟨t.Format timeFormat, hm1, hu, ?_⟩
  rw [hu]
  exact hm1

/-- C15 (witness): 2022-03-01T10:30:00 UTC at the offset -01:30. -/
theorem C15_whole_second_roundtrip_witness :
    ∃ b, (NewNullTime ⟨1646130600, 0, -5400⟩).MarshalJSON = (some b, none) ∧
      NullTime.UnmarshalJSON ⟨zeroTime, false⟩ b = (⟨⟨1646130600, 0, -5400⟩, true⟩, none) ∧
      (NullTime.UnmarshalJSON ⟨zeroTime, false⟩ b).1.MarshalJSON = (some b, none) :=
  C15_whole_second_roundtrip ⟨1646130600, 0, -5400⟩ ⟨zeroTime, false⟩ (by decide) rfl
    (by decide) (by decide)

/-- C16: for every text that begins with a double quote, and every prior
receiver state, `UnmarshalJSON` returns a parse error and leaves
`Valid = false`; so it does for the text that `MarshalJSON` returns, once
wrapped in double quotes. -/
theorem C16_UnmarshalJSON_rejects_quoted (prior : NullTime) (rest : Bytes) :
    ((prior.UnmarshalJSON (34 :: rest)).2 = some (.parse .bad) ∧
        (prior.UnmarshalJSON (34 :: rest)).1.Valid = false) ∧
      bytes "\"2022-03-01T10:30:00+0000\"" = 34 :: (bytes "2022-03-01T10:30:00+0000" ++ [34]) ∧
      NullTime.UnmarshalJSON ⟨DateUTC 2022 3 1 10 30 0 0, true⟩
          (bytes "\"2022-03-01T10:30:00+0000\"")
        = (⟨DateUTC 2022 3 1 10 30 0 0, false⟩, some (.parse .bad)) := by
  have hn : ¬ (34 :: rest = [110, 117, 108, 108] ∨ 34 :: rest = []) := by simp
  refine ⟨?_, by decide, by decide⟩
  refine ⟨?_, ?_⟩ <;> simp only [NullTime.UnmarshalJSON, if_neg hn, Parse_quote]

/-! ## Parsing a fraction of a second -/

/-- On a run of at most nine digits `leadingInt` reads them all, without an
overflow. -/
theorem leadingInt_digitList (ds : Bytes) (hd : ∀ c ∈ ds, IsDigitByte c) :
    ∀ (x m : Nat), x < 10 ^ m → m + ds.length ≤ 9 →
      leadingInt ds x = some (ds.foldl (fun acc c => acc * 10 + (c - 48)) x, []) := by
  induction ds with
  | nil => intro x m _ _; rfl
  | cons c ds ih =>
    intro x m hx hm
    have hc : IsDigitByte c := hd c (List.mem_cons_self _ _)
    unfold IsDigitByte at hc
    have hp : 10 ^ m ≤ 10 ^ 9 := Nat.pow_le_pow_right (by norm_num) (by omega)
    have hs : 10 ^ (m + 1) = 10 ^ m * 10 := pow_succ 10 m
    generalize 10 ^ m = P at hx hp hs
    norm_num at hp
    have h1 : ¬ (c < 48 ∨ c > 57) := by omega
    have h2 : ¬ x > 2 ^ 63 / 10 := by norm_num; omega
    have h3 : ¬ x * 10 + c - 48 > 2 ^ 63 := by norm_num; omega
    have h4 : x * 10 + c - 48 = x * 10 + (c - 48) := by omega
    simp only [leadingInt, if_neg h1, if_neg h2, if_neg h3, List.foldl_cons]
    rw [h4]
    refine ih (fun c' hc' => hd c' (List.mem_cons_of_mem _ hc')) _ (m + 1) ?_ ?_
    · rw [hs]; omega
    · simp only [List.length_cons] at hm; omega

/-- On a run of at most nine digits `atoi` returns the number they denote. -/
theorem atoi_digitList (ds : Bytes) (hd : ∀ c ∈ ds, IsDigitByte c) (hl : ds.length ≤ 9) :
    atoi ds = (((digitsValue ds : Nat) : Int), false) := by
  have e := leadingInt_digitList ds hd 0 0 (by norm_num) (by omega)
  cases ds with
  | nil => decide
  | cons c rest =>
    have hc : IsDigitByte c := hd c (List.mem_cons_self _ _)
    unfold IsDigitByte at hc
    have hs : ¬ (c = 45 ∨ c = 43) := by omega
    simp only [atoi, if_neg hs, e, digitsValue]
    simp

/-- A run of digits that ends at a byte that is no digit is counted in full. -/
theorem digitRun_append (ds : Bytes) (hd : ∀ c ∈ ds, IsDigitByte c) (c : Nat)
    (hc : ¬ IsDigitByte c) (rest : Bytes) : digitRun (ds ++ c :: rest) = ds.length := by
  induction ds with
  | nil =>
    unfold IsDigitByte at hc
    simp only [List.nil_append, digitRun, if_neg hc, List.length_nil]
  | cons a ds ih =>
    have ha : IsDigitByte a := hd a (List.mem_cons_self _ _)
    unfold IsDigitByte at ha
    have ih' := ih (fun c' hc' => hd c' (List.mem_cons_of_mem _ hc'))
    simp only [List.cons_append, digitRun, if_pos ha, List.length_cons]
    exact congrArg (· + 1) ih'

/-- The nanoseconds that `parseNanoseconds` reads from a fraction. -/
theorem parseNanoseconds_frac (sep : Nat) (ds rest : Bytes) (hsep : sep = 46 ∨ sep = 44)
    (hd : ∀ c ∈ ds, IsDigitByte c) :
    parseNanoseconds (sep :: ds ++ rest) (ds.length + 1) = (fracNanos (sep :: ds), "", false) := by
  have hcp : commaOrPeriod ((sep :: ds ++ rest).getD 0 0) = true := by
    rcases hsep with rfl | rfl <;> simp [commaOrPeriod]
  have hd9 : ∀ c ∈ ds.take 9, IsDigitByte c := fun c hc => hd c (List.mem_of_mem_take hc)
  have hl9 : (ds.take 9).length ≤ 9 := by simp
  have ha := atoi_digitList (ds.take 9) hd9 hl9
  unfold parseNanoseconds
  simp only [hcp, Bool.not_true, Bool.false_eq_true, if_false]
  by_cases hlen : ds.length + 1 > 10
  · have e1 : List.drop 1 (List.take 10 (List.take 10 (sep :: ds ++ rest))) = ds.take 9 := by
      simp only [List.take_take, min_self, List.cons_append, List.take_succ_cons,
        List.drop_succ_cons, List.drop_zero]
      rw [List.take_append_of_le_length (by omega)]
    have e2 : 9 - (ds.take 9).length = 0 := by simp; omega
    simp only [if_pos hlen, e1, ha, fracNanos, e2]
    simp
  · have e1 : List.drop 1 (List.take (ds.length + 1) (sep :: ds ++ rest)) = ds.take 9 := by
      simp only [List.cons_append, List.take_succ_cons, List.drop_succ_cons, List.drop_zero,
        List.take_left']
      rw [List.take_of_length_le (by omega)]
    have e2 : 9 - (ds.take 9).length = 10 - (ds.length + 1) := by
      rw [List.take_of_length_le (by omega)]; omega
    simp only [if_neg hlen, e1, ha, fracNanos, e2]
    simp

/-- The seconds element, followed by a fraction and the sign of the offset. -/
theorem parseStd_zeroSecond_frac (p : Parsed) (n : Nat) (h : n < 60) (sep : Nat) (ds : Bytes)
    (hsep : sep = 46 ∨ sep = 44) (hd : ∀ c ∈ ds, IsDigitByte c) (hne : ds ≠ [])
    (neg : Bool) (rest : Bytes) :
    parseStd .stdZeroSecond p
        (twoDigits n ++ (sep :: ds ++ (if neg = true then 45 else 43) :: rest)) =
      { p := { p with sec := n, nsec := fracNanos (sep :: ds) },
        value := (if neg = true then 45 else 43) :: rest } := by
  obtain ⟨d, ds', rfl⟩ := List.exists_cons_of_ne_nil hne
  have hdd : IsDigitByte d := hd d (List.mem_cons_self _ _)
  have hds' : ∀ c ∈ ds', IsDigitByte c := fun c hc => hd c (List.mem_cons_of_mem _ hc)
  have hsg : ¬ IsDigitByte (if neg = true then 45 else 43) := by
    unfold IsDigitByte
    cases neg <;> simp
  have h1 : ¬ ((n : Int) < 0 ∨ 60 ≤ (n : Int)) := by omega
  have h2 : (sep :: (d :: ds') ++ (if neg = true then 45 else 43) :: rest).length ≥ 2 ∧
      commaOrPeriod ((sep :: (d :: ds') ++ (if neg = true then 45 else 43) :: rest).getD 0 0)
        = true ∧
      isDigit (sep :: (d :: ds') ++ (if neg = true then 45 else 43) :: rest) 1 = true := by
    refine ⟨by simp, ?_, ?_⟩
    · rcases hsep with rfl | rfl <;> simp [commaOrPeriod]
    · exact (isDigit_one_iff _ _).mpr ⟨d, _, rfl, hdd⟩
  have h3 : 2 + digitRun (List.drop 2
      (sep :: (d :: ds') ++ (if neg = true then 45 else 43) :: rest)) = (d :: ds').length + 1 := by
    have := digitRun_append ds' hds' _ hsg rest
    simp only [List.cons_append, List.drop_succ_cons, List.drop_zero, this, List.length_cons]
    omega
  have h4 : List.drop ((d :: ds').length + 1)
      (sep :: (d :: ds') ++ (if neg = true then 45 else 43) :: rest)
      = (if neg = true then 45 else 43) :: rest := by
    simp
  simp only [parseStd, getnum_twoDigits n (by omega), Bool.false_eq_true, if_false, if_neg h1,
    if_pos h2, h3, h4, parseNanoseconds_frac sep (d :: ds') _ hsep hd]

theorem parseStd_zeroSecond_frac_cons (p : Parsed) (n : Nat) (h : n < 60) (sep : Nat)
    (ds : Bytes) (hsep : sep = 46 ∨ sep = 44) (hd : ∀ c ∈ ds, IsDigitByte c) (hne : ds ≠ [])
    (neg : Bool) (rest : Bytes) :
    parseStd .stdZeroSecond p
        (twoDigits n ++ sep :: (ds ++ (if neg = true then 45 else 43) :: rest)) =
      { p := { p with sec := n, nsec := fracNanos (sep :: ds) },
        value := (if neg = true then 45 else 43) :: rest } :=
  parseStd_zeroSecond_frac p n h sep ds hsep hd hne neg rest

/-- The loop of `Parse` walks through a rendered text with a fraction of a
second and reads back the field values and the nanoseconds. -/
theorem parseChunks_renderFrac (year month day hour min sec : Nat) (sep : Nat) (ds : Bytes)
    (neg : Bool) (zh zm : Nat)
    (hy : year < 10000) (hmo : 1 ≤ month ∧ month ≤ 12) (hd : day < 100) (hh : hour < 24)
    (hmi : min < 60) (hs : sec < 60) (hzh : zh ≤ 24) (hzm : zm ≤ 60)
    (hsep : sep = 46 ∨ sep = 44) (hds : ∀ c ∈ ds, IsDigitByte c) (hne : ds ≠ []) :
    parseChunks timeFormat {} (renderFrac year month day hour min sec (sep :: ds) neg zh zm) =
      .ok ({ year := year, month := month, day := day, hour := hour, min := min, sec := sec,
             nsec := fracNanos (sep :: ds),
             zoneOffset := if neg = true then -((((zh * 60 + zm) * 60 : Nat)) : Int)
                           else (((zh * 60 + zm) * 60 : Nat) : Int) }, []) := by
  simp only [renderFrac, timeFormat, List.append_assoc, List.singleton_append, List.cons_append,
    List.nil_append]
  rw [parseChunks_step _ _ _ _ _ _ _ _ (skip_nil _) (parseStd_longYear _ _ hy _),
    parseChunks_step _ _ _ _ _ _ _ _ (skip_one _ _) (parseStd_zeroMonth _ _ hmo _),
    parseChunks_step _ _ _ _ _ _ _ _ (skip_one _ _) (parseStd_zeroDay _ _ hd _),
    parseChunks_step _ _ _ _ _ _ _ _ (skip_one _ _) (parseStd_hour _ _ hh _),
    parseChunks_step _ _ _ _ _ _ _ _ (skip_one _ _) (parseStd_zeroMinute _ _ hmi _),
    parseChunks_step _ _ _ _ _ _ _ _ (skip_one _ _)
      (parseStd_zeroSecond_frac_cons _ _ hs sep ds hsep hds hne _ _),
    parseChunks_step _ _ _ _ _ _ _ _ (skip_nil _) (parseStd_numTZ _ _ _ _ hzh hzm)]
  rfl

theorem digitsFold_lt (ds : Bytes) (hd : ∀ c ∈ ds, IsDigitByte c) :
    ∀ x : Nat, ds.foldl (fun acc c => acc * 10 + (c - 48)) x + 1 ≤ (x + 1) * 10 ^ ds.length := by
  induction ds with
  | nil => intro x; simp
  | cons c ds ih =>
    intro x
    have hc : IsDigitByte c := hd c (List.mem_cons_self _ _)
    unfold IsDigitByte at hc
    have h1 := ih (fun c' hc' => hd c' (List.mem_cons_of_mem _ hc')) (x * 10 + (c - 48))
    have h2 : (x * 10 + (c - 48) + 1) * 10 ^ ds.length ≤ ((x + 1) * 10) * 10 ^ ds.length :=
      Nat.mul_le_mul_right _ (by omega)
    simp only [List.foldl_cons, List.length_cons, pow_succ]
    calc List.foldl (fun acc c => acc * 10 + (c - 48)) (x * 10 + (c - 48)) ds + 1
        ≤ (x * 10 + (c - 48) + 1) * 10 ^ ds.length := h1
      _ ≤ ((x + 1) * 10) * 10 ^ ds.length := h2
      _ = (x + 1) * (10 ^ ds.length * 10) := by ring

/-- The nanoseconds of a fraction are less than a second. -/
theorem fracNanos_range (frac : Bytes) (hf : IsFraction frac) :
    0 ≤ fracNanos frac ∧ fracNanos frac < 1000000000 := by
  rcases hf with rfl | ⟨sep, ds, rfl, -, -, hd⟩
  · decide
  · have hd9 : ∀ c ∈ ds.take 9, IsDigitByte c := fun c hc => hd c (List.mem_of_mem_take hc)
    have h1 := digitsFold_lt (ds.take 9) hd9 0
    have hl : (ds.take 9).length ≤ 9 := by simp
    have h2 : 10 ^ (ds.take 9).length * 10 ^ (9 - (ds.take 9).length) = 10 ^ 9 := by
      rw [← pow_add]
      congr 1
      omega
    have h3 : digitsValue (ds.take 9) < 10 ^ (ds.take 9).length := by
      unfold digitsValue
      omega
    have h4 : digitsValue (ds.take 9) * 10 ^ (9 - (ds.take 9).length) < 10 ^ 9 := by
      rw [← h2]
      exact Nat.mul_lt_mul_of_pos_right h3 (by positivity)
    simp only [fracNanos]
    constructor
    · exact Int.natCast_nonneg _
    · have : ((digitsValue (ds.take 9) * 10 ^ (9 - (ds.take 9).length) : Nat) : Int)
          < ((10 ^ 9 : Nat) : Int) := Int.ofNat_lt.mpr h4
      norm_num at this ⊢
      exact this

/-- No month has more than 31 days. -/
theorem daysIn_le (m year : Int) (hm : 1 ≤ m ∧ m ≤ 12) : daysIn m year ≤ 31 := by
  have c1 := daysBefore_cases m
  have c2 := daysBefore_cases (m - 1)
  unfold daysIn
  split_ifs <;> omega

/-- Without a fraction, `renderFrac` is `render`. -/
theorem renderFrac_nil (year month day hour min sec : Nat) (neg : Bool) (zh zm : Nat) :
    renderFrac year month day hour min sec [] neg zh zm
      = render year month day hour min sec neg zh zm := by
  simp [renderFrac, render]

/-- The loop of `Parse` on a text in the layout, with or without a fraction. -/
theorem parseChunks_renderFrac_any (year month day hour min sec : Nat) (frac : Bytes)
    (neg : Bool) (zh zm : Nat)
    (hy : year < 10000) (hmo : 1 ≤ month ∧ month ≤ 12) (hd : day < 100) (hh : hour < 24)
    (hmi : min < 60) (hs : sec < 60) (hzh : zh ≤ 24) (hzm : zm ≤ 60) (hf : IsFraction frac) :
    parseChunks timeFormat {} (renderFrac year month day hour min sec frac neg zh zm) =
      .ok ({ year := year, month := month, day := day, hour := hour, min := min, sec := sec,
             nsec := fracNanos frac, zoneOffset := zoneSeconds neg zh zm }, []) := by
  rcases hf with rfl | ⟨sep, ds, rfl, hsep, hne, hds⟩
  · rw [renderFrac_nil, parseChunks_render _ _ _ _ _ _ _ _ _ hy hmo hd hh hmi hs hzh hzm]
    rfl
  · rw [parseChunks_renderFrac _ _ _ _ _ _ _ _ _ _ _ hy hmo hd hh hmi hs hzh hzm hsep hds hne]
    rfl

/-- What `Parse` returns for a text in the layout, with or without a
fraction, whose fields are in range. -/
theorem Parse_renderFrac (year month day hour min sec : Nat) (frac : Bytes)
    (neg : Bool) (zh zm : Nat)
    (hy : year < 10000) (hmo : 1 ≤ month ∧ month ≤ 12)
    (hd : 1 ≤ day ∧ (day : Int) ≤ daysIn month year) (hh : hour < 24)
    (hmi : min < 60) (hs : sec < 60) (hzh : zh ≤ 24) (hzm : zm ≤ 60) (hf : IsFraction frac) :
    Parse timeFormat (renderFrac year month day hour min sec frac neg zh zm) =
      .ok { sec := (DateUTC year month day hour min sec 0).sec - zoneSeconds neg zh zm,
            nsec := fracNanos frac, offset := zoneSeconds neg zh zm } := by
  have hd31 := daysIn_le month year (by omega)
  have hn := fracNanos_range frac hf
  unfold Parse
  rw [parseChunks_renderFrac_any _ _ _ _ _ _ _ _ _ _ hy hmo (by omega) hh hmi hs hzh hzm hf]
  have hA : ¬ (month : Int) < 0 := by omega
  have hB : ¬ (day : Int) < 0 := by omega
  have hC : ¬ ((day : Int) < 1 ∨ (day : Int) > daysIn month year) := by omega
  have hD : zoneSeconds neg zh zm ≠ -1 := by
    unfold zoneSeconds
    split_ifs <;> omega
  simp only [if_neg hA, if_neg hB, if_neg hC, if_pos hD]
  rw [DateUTC_eq _ _ _ _ _ _ _ (by omega) (by omega) (by omega) (by omega) hn,
    DateUTC_eq _ _ _ _ _ _ _ (by omega) (by omega) (by omega) (by omega) (by omega)]

/-- C14 (counterexample): two texts that match the fixed layout (the second
with a fraction after the seconds) and that `UnmarshalJSON` rejects, leaving
`Valid = false`: a month 13 and a February 30. -/
theorem C14_counterexample :
    (MatchesLayout (bytes "2022-13-01T10:30:00+0000") ∧
      NullTime.UnmarshalJSON ⟨zeroTime, false⟩ (bytes "2022-13-01T10:30:00+0000")
        = (⟨zeroTime, false⟩, some (.parse (.outOfRange "month")))) ∧
    (bytes "2022-02-30T10:30:00.5+0000" = renderFrac 2022 2 30 10 30 0 (bytes ".5") false 0 0 ∧
      NullTime.UnmarshalJSON ⟨zeroTime, false⟩ (bytes "2022-02-30T10:30:00.5+0000")
        = (⟨zeroTime, false⟩, some (.parse (.outOfRange "day")))) := by
  decide

/-- C14 (amended): for every text in the fixed layout
`YYYY-MM-DDThh:mm:ss±hhmm`, optionally with a fraction of a second (a period
or comma and one or more digits) after the seconds, whose fields are in range
(month 1 to 12, day 1 to the length of the month, hour below 24, minute and
second below 60, offset hours at most 24 and offset minutes at most 60), and
for every prior receiver state, `UnmarshalJSON` returns no error and leaves
`Valid = true` and `Time` the timestamp that the text denotes: that date and
clock at that offset, with the fraction as its sub-second part. -/
theorem C14_UnmarshalJSON_accepts (prior : NullTime) (year month day hour min sec : Nat)
    (frac : Bytes) (neg : Bool) (zh zm : Nat)
    (hy : year < 10000) (hmo : 1 ≤ month ∧ month ≤ 12)
    (hd : 1 ≤ day ∧ (day : Int) ≤ daysIn month year) (hh : hour < 24)
    (hmi : min < 60) (hs : sec < 60) (hzh : zh ≤ 24) (hzm : zm ≤ 60) (hf : IsFraction frac) :
    prior.UnmarshalJSON (renderFrac year month day hour min sec frac neg zh zm) =
      (⟨{ sec := (DateUTC year month day hour min sec 0).sec - zoneSeconds neg zh zm,
          nsec := fracNanos frac, offset := zoneSeconds neg zh zm }, true⟩, none) := by
  have hlen : 24 ≤ (renderFrac year month day hour min sec frac neg zh zm).length := by
    simp [renderFrac, fourDigits, twoDigits]
  have hn : ¬ (renderFrac year month day hour min sec frac neg zh zm = [110, 117, 108, 108] ∨
      renderFrac year month day hour min sec frac neg zh zm = []) := by
    rintro (e | e) <;> rw [e] at hlen <;> exact absurd hlen (by decide)
  simp only [NullTime.UnmarshalJSON, if_neg hn,
    Parse_renderFrac _ _ _ _ _ _ _ _ _ _ hy hmo hd hh hmi hs hzh hzm hf]

/-- C14 (witness): the text `2022-03-01T10:30:00.5+0000`. -/
theorem C14_UnmarshalJSON_accepts_witness :
    NullTime.UnmarshalJSON ⟨zeroTime, false⟩
        (renderFrac 2022 3 1 10 30 0 (bytes ".5") false 0 0) =
      (⟨{ sec := (DateUTC 2022 3 1 10 30 0 0).sec - zoneSeconds false 0 0,
          nsec := fracNanos (bytes ".5"), offset := zoneSeconds false 0 0 }, true⟩, none) ∧
    renderFrac 2022 3 1 10 30 0 (bytes ".5") false 0 0 = bytes "2022-03-01T10:30:00.5+0000" ∧
    fracNanos (bytes ".5") = 500000000 :=
  ⟨C14_UnmarshalJSON_accepts ⟨zeroTime, false⟩ 2022 3 1 10 30 0 (bytes ".5") false 0 0
      (by decide) (by decide) (by decide) (by decide) (by decide) (by decide) (by decide)
      (by decide) (Or.inr ⟨46, [53], by decide, Or.inl rfl, by decide,
        by intro c hc; rw [List.mem_singleton.mp hc]; unfold IsDigitByte; omega⟩),
    by decide, by decide⟩

end Nulls
